import Mathlib

/-!
# Verification of the Redis user-waitlist manager

Shallow embedding of `src/waitlistManager.ts` (class `WaitlistManager`).
The Redis store is modelled as explicit state: the ordered list is a
`List String`, every Redis hash is an association list, every Redis set a
`List String` with `sadd`/`contains`.  Each public method of the class is
translated into a state-passing function; a thrown JS error or a Lua
`{err = ...}` reply becomes `Except.error`, and—as in Redis—writes a Lua
script performed before erroring out persist, so every operation returns
the (possibly mutated) state alongside its result.
-/

/-- Member record stored in the `waitlist:users` hash.  The TS code stores
`JSON.stringify({id, email, phone, metadata})`; `metadata` is opaque, so it
is modelled as an optional opaque string. -/
structure UserRecord where
  id : String
  email : Option String
  phone : Option String
  metadata : Option String
deriving DecidableEq, Repr

/-- `UserData` input type from `waitlistTypes.ts`. -/
structure UserData where
  email : Option String
  phone : Option String
  metadata : Option String
deriving DecidableEq, Repr

/-- Community-code record stored as JSON in the `waitlist:codes` hash
(`createCommunityCode` / `useCommunityCode`). -/
structure CodeInfo where
  maxUses : Int
  currentUses : Int
deriving DecidableEq, Repr

/-- `InsertResult` from `waitlistTypes.ts`. -/
structure InsertResult where
  id : String
  position : Nat
  already_existed : Bool
deriving DecidableEq, Repr

/-- Redis `HGET`: first binding of the key in the association list. -/
def hget (h : List (String × α)) (k : String) : Option α :=
  match h with
  | [] => none
  | (k1, v) :: t => if k1 = k then some v else hget t k

/-- Redis `HSET`: overwrite the binding of `k`, or append a fresh one. -/
def hset (h : List (String × α)) (k : String) (v : α) : List (String × α) :=
  match h with
  | [] => [(k, v)]
  | (k1, v1) :: t => if k1 = k then (k, v) :: t else (k1, v1) :: hset t k v

/-- Redis `HDEL` of a single field. -/
def hdel (h : List (String × α)) (k : String) : List (String × α) :=
  match h with
  | [] => []
  | (k1, v1) :: t => if k1 = k then t else (k1, v1) :: hdel t k

/-- Redis `SADD` on a set modelled as a duplicate-free list. -/
def sadd (l : List String) (x : String) : List String :=
  if l.contains x then l else l ++ [x]

/-- The Lua position scan used by `getPosition`, `insertUser`,
`useInviteCode`, `deleteUser` and `markUserAsSignedUp`:
iterate over `LRANGE key 0 -1` and return the first 1-based index whose
element equals `id`, or `0` when absent. -/
def positionOf (l : List String) (id : String) : Nat :=
  match l with
  | [] => 0
  | a :: as =>
    if a = id then 1
    else
      match positionOf as id with
      | 0 => 0
      | n + 1 => n + 2

/-- Redis `LINSERT key BEFORE pivot x`: insert `x` before the first
occurrence of `pivot`; no-op when the pivot is absent. -/
def linsertBefore (l : List String) (pivot x : String) : List String :=
  match l with
  | [] => []
  | a :: as => if a = pivot then x :: a :: as else a :: linsertBefore as pivot x

/-- The whole Redis keyspace used by `WaitlistManager`, plus the three
mutable instance fields (`signupCutoff`, `lengthLimit`, `inviteCodeLimit`).
Field names follow the `keys` table of the class. -/
structure State where
  /-- `waitlist:list` -/
  waitlist : List String
  /-- `waitlist:users` -/
  users : List (String × UserRecord)
  /-- `waitlist:emails` -/
  emails : List (String × String)
  /-- `waitlist:phones` -/
  phones : List (String × String)
  /-- `waitlist:invite_codes` (code -> creatorId) -/
  inviteCodes : List (String × String)
  /-- `waitlist:used_codes` (code -> userId) -/
  usedInviteCodes : List (String × String)
  /-- `waitlist:used_codes:reverse` (userId -> code) -/
  usedInviteCodesRev : List (String × String)
  /-- `waitlist:user_codes` (userId -> count) -/
  userInviteCodes : List (String × Int)
  /-- `waitlist:user_codes:<userId>` sets -/
  userCodeSets : List (String × List String)
  /-- `waitlist:invite_code_bumps` (code -> minBumpPositions) -/
  inviteCodeBumps : List (String × Int)
  /-- `waitlist:signed_up` set -/
  signedUp : List String
  /-- `waitlist:codes` (code -> JSON CodeInfo) -/
  codes : List (String × CodeInfo)
  /-- `waitlist:codes:uses` (code -> HINCRBY counter) -/
  codeUses : List (String × Int)
  /-- `waitlist:code:<code>:users` identity sets -/
  codeIdentities : List (String × List String)
  /-- instance field `signupCutoff` (default -1) -/
  signupCutoff : Int
  /-- instance field `lengthLimit` (default 100000) -/
  lengthLimit : Int
  /-- instance field `inviteCodeLimit` (default 3) -/
  inviteCodeLimit : Int
deriving DecidableEq, Repr

/-- A freshly constructed manager over an empty Redis instance. -/
def emptyState : State :=
  { waitlist := [], users := [], emails := [], phones := [], inviteCodes := []
    usedInviteCodes := [], usedInviteCodesRev := [], userInviteCodes := []
    userCodeSets := [], inviteCodeBumps := [], signedUp := [], codes := []
    codeUses := [], codeIdentities := []
    signupCutoff := -1, lengthLimit := 100000, inviteCodeLimit := 3 }

/-- `HINCRBY`-backed counter read for community codes: missing field is 0. -/
def usesOf (s : State) (code : String) : Int :=
  (hget s.codeUses code).getD 0

/-- Members of the per-community-code identity set. -/
def identsOf (s : State) (code : String) : List String :=
  (hget s.codeIdentities code).getD []

/-! ## Operations translated from `waitlistManager.ts` -/

/-- `getPosition` (lines 199-212): the Lua scan over the list. -/
def getPosition (s : State) (id : String) : Nat :=
  positionOf s.waitlist id

/-- `isUserSignedUp` (lines 1345-1347): `SISMEMBER waitlist:signed_up id`. -/
def isUserSignedUp (s : State) (id : String) : Bool :=
  s.signedUp.contains id

/-- The two duplicate-check blocks at the top of the `insertUser` Lua script
(lines 255-285): email lookup first, then phone lookup, each guarded by the
argument being non-empty. -/
def existingUserLookup (s : State) (email phone : String) : Option String :=
  match (if email ≠ "" then hget s.emails email else none) with
  | some i => some i
  | none => if phone ≠ "" then hget s.phones phone else none

/-- `insertUser` (lines 243-335).  `newId` stands for the freshly generated
`uuidv4()`.  On a duplicate identity the script returns the existing id and
position without touching the list, but the TS wrapper then unconditionally
overwrites the user record (lines 322-328). -/
def insertUser (s : State) (newId : String) (d : UserData) : Except String InsertResult × State :=
  let email := d.email.getD ""
  let phone := d.phone.getD ""
  if email = "" ∧ phone = "" then
    (.error "Either email or phone must be provided", s)
  else
    match existingUserLookup s email phone with
    | some existingId =>
      (.ok { id := existingId, position := positionOf s.waitlist existingId, already_existed := true },
       { s with users := hset s.users existingId
                  { id := existingId, email := d.email, phone := d.phone, metadata := d.metadata } })
    | none =>
      if (s.waitlist.length : Int) ≥ s.lengthLimit then
        (.error ("Waitlist is full (limit: " ++ toString s.lengthLimit ++ ")"), s)
      else
        let s1 : State :=
          { s with waitlist := s.waitlist ++ [newId]
                   emails := if email ≠ "" then hset s.emails email newId else s.emails
                   phones := if phone ≠ "" then hset s.phones phone newId else s.phones }
        (.ok { id := newId, position := s.waitlist.length + 1, already_existed := false },
         { s1 with users := hset s1.users newId
                     { id := newId, email := d.email, phone := d.phone, metadata := d.metadata } })

/-- `attachEmail` (lines 360-393). -/
def attachEmail (s : State) (id email : String) : Except String Bool × State :=
  if isUserSignedUp s id then (.error "Cannot attach email to signed up user", s)
  else if (hget s.emails email).isSome then (.ok false, s)
  else
    match hget s.users id with
    | none => (.ok false, s)
    | some _ =>
      let s1 : State := { s with emails := hset s.emails email id }
      let r := (hget s1.users id).getD { id := "", email := none, phone := none, metadata := none }
      (.ok true, { s1 with users := hset s1.users id { r with email := some email } })

/-- `attachPhone` (lines 418-451). -/
def attachPhone (s : State) (id phone : String) : Except String Bool × State :=
  if isUserSignedUp s id then (.error "Cannot attach phone to signed up user", s)
  else if (hget s.phones phone).isSome then (.ok false, s)
  else
    match hget s.users id with
    | none => (.ok false, s)
    | some _ =>
      let s1 : State := { s with phones := hset s.phones phone id }
      let r := (hget s1.users id).getD { id := "", email := none, phone := none, metadata := none }
      (.ok true, { s1 with users := hset s1.users id { r with phone := some phone } })

/-- One execution of the `moveUser` Lua script (lines 496-532) without lock
contention (the `SET NX` of the single-caller lease always succeeds).
Returns the Lua reply (1 or 0) and the resulting list.  Note that the script
removes the id (`LREM`) before looking up the pivot, so when the pivot index
is out of range it returns 0 with the id already removed. -/
def moveUserScript (l : List String) (id : String) (targetPos : Int) : Nat × List String :=
  if (l.length : Int) = 0 ∨ targetPos < 1 ∨ targetPos > (l.length : Int) + 1 then (0, l)
  else if targetPos = 1 then (1, id :: l.erase id)
  else if targetPos > (l.length : Int) then (1, l.erase id ++ [id])
  else
    match (l.erase id)[(targetPos - 1).toNat]? with
    | none => (0, l.erase id)
    | some pivot => (1, linsertBefore (l.erase id) pivot id)

/-- `moveUser` (lines 478-542): the signed-up and cutoff gates, then up to
three attempts of the move script (the retry loop at lines 534-540). -/
def moveUser (s : State) (id : String) (targetPos : Int) : Except String Bool × State :=
  if isUserSignedUp s id then
    (.error "Cannot move user that has already signed up", s)
  else if (positionOf s.waitlist id : Int) ≤ s.signupCutoff then
    (.error "Cannot move user that is within signup cutoff", s)
  else if targetPos ≤ s.signupCutoff then
    (.error "Cannot move user to position at or above signup cutoff", s)
  else
    let a1 := moveUserScript s.waitlist id targetPos
    if a1.1 = 1 then (.ok true, { s with waitlist := a1.2 })
    else
      let a2 := moveUserScript a1.2 id targetPos
      if a2.1 = 1 then (.ok true, { s with waitlist := a2.2 })
      else
        let a3 := moveUserScript a2.2 id targetPos
        if a3.1 = 1 then (.ok true, { s with waitlist := a3.2 })
        else (.ok false, { s with waitlist := a3.2 })

/-- `moveUserByEmail` (lines 562-568). -/
def moveUserByEmail (s : State) (email : String) (targetPos : Int) : Except String Bool × State :=
  match hget s.emails email with
  | none => (.error "User not found with this email", s)
  | some uid => moveUser s uid targetPos

/-- `moveUserByPhone` (lines 588-594). -/
def moveUserByPhone (s : State) (phone : String) (targetPos : Int) : Except String Bool × State :=
  match hget s.phones phone with
  | none => (.error "User not found with this phone", s)
  | some uid => moveUser s uid targetPos

/-- `deleteUser` (lines 622-679).  The Lua script checks the record, then the
signed-up set, then removes the id from the list, the users hash and the
identity hashes.  (The position scan computed at lines 636-644 is dead code:
its result is never used.)  A Lua `{err = ...}` reply is rethrown by TS. -/
def deleteUser (s : State) (id : String) : Except String Bool × State :=
  match hget s.users id with
  | none => (.ok false, s)
  | some userData =>
    if s.signedUp.contains id then
      (.error "Cannot delete user that has already signed up", s)
    else
      (.ok true,
       { s with waitlist := s.waitlist.erase id
                users := hdel s.users id
                emails := match userData.email with
                          | some e => hdel s.emails e
                          | none => s.emails
                phones := match userData.phone with
                          | some p => hdel s.phones p
                          | none => s.phones })

/-- `deleteUserByEmail` (lines 695-699). -/
def deleteUserByEmail (s : State) (email : String) : Except String Bool × State :=
  match hget s.emails email with
  | none => (.ok false, s)
  | some uid => deleteUser s uid

/-- `deleteUserByPhone` (lines 715-719). -/
def deleteUserByPhone (s : State) (phone : String) : Except String Bool × State :=
  match hget s.phones phone with
  | none => (.ok false, s)
  | some uid => deleteUser s uid

/-- The code-generation loop of the `createInviteCode` Lua script
(lines 837-858): try random candidates until one is absent from the
`invite_codes` hash, giving up after `maxAttempts = 50`.  The stream of
`math.random` draws is modelled by the explicit `candidates` list. -/
def firstFreshCode (codes : List (String × String)) : List String → Option String
  | [] => none
  | c :: cs => if (hget codes c).isSome then firstFreshCode codes cs else some c

/-- `createInviteCode` (lines 817-885).  Note that the script never checks
that `userId` exists: `KEYS[2]` (the users hash) is passed but unused. -/
def createInviteCode (s : State) (userId : String) (minBumpPositions : Int)
    (candidates : List String) : Except String String × State :=
  if isUserSignedUp s userId then
    (.error "Signed up users cannot create invite codes", s)
  else
    let userCodeCount := (hget s.userInviteCodes userId).getD 0
    if userCodeCount ≥ s.inviteCodeLimit then
      (.error "Invite code limit reached", s)
    else
      match firstFreshCode s.inviteCodes (candidates.take 50) with
      | none => (.error "Failed to generate unique code", s)
      | some code =>
        (.ok code,
         { s with inviteCodes := hset s.inviteCodes code userId
                  inviteCodeBumps := hset s.inviteCodeBumps code minBumpPositions
                  userCodeSets := hset s.userCodeSets userId
                    (sadd ((hget s.userCodeSets userId).getD []) code)
                  userInviteCodes := hset s.userInviteCodes userId (userCodeCount + 1) })

/-- The `useInviteCode` Lua script (lines 943-1020).  Mirrors the source
statement by statement; in particular the code is marked used (line 980)
BEFORE the creator scan, and `LINSERT` is called with the raw `LINDEX`
result (line 1012-1013), so an out-of-range pivot index aborts the script
with a store error while the writes already issued persist. -/
def useInviteCodeScript (s : State) (code newId email phone : String)
    (requestedBumpPositions : Int) : Except String String × State :=
  match hget s.inviteCodes code with
  | none => (.error "Invalid invite code", s)
  | some creatorId =>
    if (s.waitlist.length : Int) ≥ s.lengthLimit then (.error "Waitlist is full", s)
    else if (hget s.usedInviteCodes code).isSome then (.error "Invite code already used", s)
    else if email ≠ "" ∧ (hget s.emails email).isSome then (.error "Email already exists", s)
    else if phone ≠ "" ∧ (hget s.phones phone).isSome then (.error "Phone already exists", s)
    -- the code is marked used (HSET, line 980) before the creator scan,
    -- so the `creatorPos == 0` error below keeps that write
    else if positionOf s.waitlist creatorId = 0 then
      (.error "Creator not found in waitlist",
       { s with usedInviteCodes := hset s.usedInviteCodes code newId })
    -- targetPos = max(1, creatorPos - max(requestedBump, minBump)); the
    -- new member is appended (RPUSH, line 997), the identity mappings
    -- written (lines 1000-1005), the creator removed (LREM, line 1008)
    -- and re-inserted (lines 1009-1014)
    else if max 1 ((positionOf s.waitlist creatorId : Int) -
        max requestedBumpPositions ((hget s.inviteCodeBumps code).getD 0)) = 1 then
      (.ok newId,
       { s with waitlist := creatorId :: (s.waitlist ++ [newId]).erase creatorId
                emails := if email ≠ "" then hset s.emails email newId else s.emails
                phones := if phone ≠ "" then hset s.phones phone newId else s.phones
                usedInviteCodes := hset (hset s.usedInviteCodes code newId) code newId
                usedInviteCodesRev := hset s.usedInviteCodesRev newId code })
    else
      match ((s.waitlist ++ [newId]).erase creatorId)[(max 1
          ((positionOf s.waitlist creatorId : Int) -
            max requestedBumpPositions ((hget s.inviteCodeBumps code).getD 0)) - 1).toNat]? with
      | none =>
        -- `LINSERT` receives the Lua false returned by an out-of-range
        -- `LINDEX`: the store rejects the call and the script aborts here,
        -- keeping the writes already performed.
        (.error "Lua redis lib command arguments must be strings or integers",
         { s with waitlist := (s.waitlist ++ [newId]).erase creatorId
                  emails := if email ≠ "" then hset s.emails email newId else s.emails
                  phones := if phone ≠ "" then hset s.phones phone newId else s.phones
                  usedInviteCodes := hset s.usedInviteCodes code newId })
      | some pivot =>
        (.ok newId,
         { s with waitlist := linsertBefore ((s.waitlist ++ [newId]).erase creatorId) pivot creatorId
                  emails := if email ≠ "" then hset s.emails email newId else s.emails
                  phones := if phone ≠ "" then hset s.phones phone newId else s.phones
                  usedInviteCodes := hset (hset s.usedInviteCodes code newId) code newId
                  usedInviteCodesRev := hset s.usedInviteCodesRev newId code })

/-- `useInviteCode` (lines 921-1057): the TS pre-checks, the Lua script, and
the trailing user-record write plus position read. -/
def useInviteCode (s : State) (code : String) (d : UserData) (bumpPositions : Int)
    (newId : String) : Except String InsertResult × State :=
  match hget s.inviteCodes code with
  | none => (.error "Invalid invite code", s)
  | some creatorId =>
    if positionOf s.waitlist creatorId = 0 then
      (.error "Invite code creator no longer in waitlist", s)
    else if isUserSignedUp s creatorId then
      (.error "Cannot use invite code from signed up user", s)
    else if d.email.getD "" = "" ∧ d.phone.getD "" = "" then
      (.error "Either email or phone must be provided", s)
    else
      match useInviteCodeScript s code newId (d.email.getD "") (d.phone.getD "") bumpPositions with
      | (.error e, s1) => (.error e, s1)
      | (.ok _, s1) =>
        let s2 : State :=
          { s1 with users := hset s1.users newId
                      { id := newId, email := d.email, phone := d.phone, metadata := d.metadata } }
        (.ok { id := newId, position := positionOf s2.waitlist newId, already_existed := false }, s2)

/-- `canUserSignUp` (lines 1367-1373). -/
def canUserSignUp (s : State) (id : String) : Bool :=
  decide (0 < positionOf s.waitlist id) &&
  decide ((positionOf s.waitlist id : Int) ≤ s.signupCutoff) &&
  !(s.signedUp.contains id)

/-- `markUserAsSignedUp` (lines 1396-1436): the scan position must be
nonzero and within the cutoff, and the member not already signed up. -/
def markUserAsSignedUp (s : State) (id : String) : Bool × State :=
  if positionOf s.waitlist id = 0 ∨ (positionOf s.waitlist id : Int) > s.signupCutoff then
    (false, s)
  else if s.signedUp.contains id then (false, s)
  else (true, { s with signedUp := sadd s.signedUp id })

/-- `setSignupCutoff` (lines 160-167): validate, then clamp to the current
list length. -/
def setSignupCutoff (s : State) (cutoff : Int) : Except String Unit × State :=
  if cutoff < -1 then (.error "Signup cutoff cannot be less than -1", s)
  else
    let length : Int := s.waitlist.length
    (.ok (), { s with signupCutoff := if cutoff > length then length else cutoff })

/-- `setListLimit` (lines 88-93). -/
def setListLimit (s : State) (limit : Int) : Except String Unit × State :=
  if limit < 0 then (.error "Length limit cannot be negative", s)
  else (.ok (), { s with lengthLimit := limit })

/-- `setInviteCodeLimit` (lines 107-112). -/
def setInviteCodeLimit (s : State) (limit : Int) : Except String Unit × State :=
  if limit < 0 then (.error "Invite code limit cannot be negative", s)
  else (.ok (), { s with inviteCodeLimit := limit })

/-- `createCommunityCode` (lines 1453-1469). -/
def createCommunityCode (s : State) (code : String) (maxUses : Int) : Except String Bool × State :=
  if maxUses < 1 then (.error "Maximum uses must be at least 1", s)
  else if (hget s.codes code).isSome then (.ok false, s)
  else (.ok true, { s with codes := hset s.codes code { maxUses := maxUses, currentUses := 0 } })

/-- `useCommunityCode` (lines 1491-1577).  The TS method returns
`true | string`; modelled as `Except String Unit`.  The Lua script
increments the `:uses` counter first and compensates with a decrement on
the over-limit and duplicate-identity failure paths. -/
def useCommunityCode (s : State) (code : String) (d : UserData) : Except String Unit × State :=
  let email := d.email.getD ""
  let phone := d.phone.getD ""
  if email = "" ∧ phone = "" then (.error "Either email or phone must be provided", s)
  else
    match hget s.codes code with
    | none => (.error "Invalid code", s)
    | some codeInfo =>
      let newUses := usesOf s code + 1
      let s1 : State := { s with codeUses := hset s.codeUses code newUses }
      if newUses > codeInfo.maxUses then
        (.error "Code has reached usage limit",
         { s1 with codeUses := hset s1.codeUses code (newUses - 1) })
      else if email ≠ "" ∧ email ∈ identsOf s1 code then
        (.error "Code already used by this email",
         { s1 with codeUses := hset s1.codeUses code (newUses - 1) })
      else if phone ≠ "" ∧ phone ∈ identsOf s1 code then
        (.error "Code already used by this phone",
         { s1 with codeUses := hset s1.codeUses code (newUses - 1) })
      else
        let s2 : State :=
          { s1 with codes := hset s1.codes code { codeInfo with currentUses := newUses } }
        let idents1 :=
          if email ≠ "" then hset s2.codeIdentities code (sadd (identsOf s2 code) email)
          else s2.codeIdentities
        let idents2 :=
          if phone ≠ "" then hset idents1 code (sadd ((hget idents1 code).getD []) phone)
          else idents1
        let s3 : State := { s2 with codeIdentities := idents2 }
        let existingId :=
          match (if email ≠ "" then hget s.emails email else none) with
          | some i => some i
          | none => if phone ≠ "" then hget s.phones phone else none
        match existingId with
        | some mid => (.ok (), { s3 with signedUp := sadd s3.signedUp mid })
        | none => (.ok (), s3)

/-- `deleteCommunityCode` (lines 1631-1656). -/
def deleteCommunityCode (s : State) (code : String) : Except String Bool × State :=
  if (hget s.codes code).isNone then (.ok false, s)
  else
    (.ok true,
     { s with codes := hdel s.codes code
              codeUses := hdel s.codeUses code
              codeIdentities := hdel s.codeIdentities code })

/-! ## The public mutating API as a single step type

Used to express temporal properties ("every subsequent call", "every
reachable state").  Each constructor carries the caller-supplied arguments;
for operations involving nondeterminism (`uuidv4`, `math.random`) the
generated values are explicit parameters, so the quantification over `Op`
covers every possible draw. -/

inductive Op where
  | insertUser (newId : String) (d : UserData)
  | attachEmail (id email : String)
  | attachPhone (id phone : String)
  | moveUser (id : String) (targetPos : Int)
  | moveUserByEmail (email : String) (targetPos : Int)
  | moveUserByPhone (phone : String) (targetPos : Int)
  | deleteUser (id : String)
  | deleteUserByEmail (email : String)
  | deleteUserByPhone (phone : String)
  | createInviteCode (userId : String) (minBumpPositions : Int) (candidates : List String)
  | useInviteCode (code : String) (d : UserData) (bumpPositions : Int) (newId : String)
  | markUserAsSignedUp (id : String)
  | setSignupCutoff (cutoff : Int)
  | setListLimit (limit : Int)
  | setInviteCodeLimit (limit : Int)
  | createCommunityCode (code : String) (maxUses : Int)
  | useCommunityCode (code : String) (d : UserData)
  | deleteCommunityCode (code : String)

/-- The store state left behind by one public call (whether it succeeds,
returns a failure value, or throws). -/
def applyOp (s : State) : Op → State
  | .insertUser newId d => (insertUser s newId d).2
  | .attachEmail id email => (attachEmail s id email).2
  | .attachPhone id phone => (attachPhone s id phone).2
  | .moveUser id targetPos => (moveUser s id targetPos).2
  | .moveUserByEmail email targetPos => (moveUserByEmail s email targetPos).2
  | .moveUserByPhone phone targetPos => (moveUserByPhone s phone targetPos).2
  | .deleteUser id => (deleteUser s id).2
  | .deleteUserByEmail email => (deleteUserByEmail s email).2
  | .deleteUserByPhone phone => (deleteUserByPhone s phone).2
  | .createInviteCode userId minBump candidates => (createInviteCode s userId minBump candidates).2
  | .useInviteCode code d bump newId => (useInviteCode s code d bump newId).2
  | .markUserAsSignedUp id => (markUserAsSignedUp s id).2
  | .setSignupCutoff cutoff => (setSignupCutoff s cutoff).2
  | .setListLimit limit => (setListLimit s limit).2
  | .setInviteCodeLimit limit => (setInviteCodeLimit s limit).2
  | .createCommunityCode code maxUses => (createCommunityCode s code maxUses).2
  | .useCommunityCode code d => (useCommunityCode s code d).2
  | .deleteCommunityCode code => (deleteCommunityCode s code).2

/-- Run a sequence of public calls. -/
def applyOps (s : State) (ops : List Op) : State :=
  ops.foldl applyOp s

/-! ## Basic lemmas about the store primitives -/

/-- State refuting the unqualified form of C1: the single member is signed
up, so the move throws instead of returning `true`. -/
def c1CexState : State :=
  { emptyState with waitlist := ["m0"], signedUp := ["m0"] }

/-- Concrete three-member run of the amended C1 (target = length exercises
the script-retry path). -/
def c1WitnessState : State :=
  { emptyState with waitlist := ["a", "b", "c"] }

/-- A one-member open-cutoff state: the member sits at position 1 and has
not signed up, yet is rejected. -/
def c6State : State :=
  { emptyState with waitlist := ["m0"]
                    users := [("m0", { id := "m0", email := some "m@x", phone := none, metadata := none })]
                    emails := [("m@x", "m0")]
                    signupCutoff := 0 }

/-- **C4** counterexample to the "leaves all state unchanged" part: member
`"A"` has email and phone on record; re-inserting with only the email
returns `"A"` as a duplicate but rewrites `"A"`'s stored record, dropping
the phone field. -/
def c4State : State :=
  { emptyState with waitlist := ["A"]
                    users := [("A", { id := "A", email := some "a@x", phone := some "+1", metadata := none })]
                    emails := [("a@x", "A")]
                    phones := [("+1", "A")] }

/-- The duplicate call of the C4 scenario. -/
def c4Data : UserData := { email := some "a@x", phone := none, metadata := none }

/-- State for C10: the email resolves to `"A"` while the phone resolves to
a different live member `"B"`. -/
def c10State : State :=
  { emptyState with waitlist := ["A", "B"]
                    users := [("A", { id := "A", email := some "a@x", phone := none, metadata := none }),
                              ("B", { id := "B", email := none, phone := some "+1", metadata := none })]
                    emails := [("a@x", "A")]
                    phones := [("+1", "B")] }

/-- State for the C9 witness: the waitlist is closed (`signupCutoff = -1`),
`"m0"` sits in the order and is not eligible to sign up, and a community
code `"GOLD"` with 5 allowed uses exists. -/
def c9State : State :=
  { emptyState with waitlist := ["m0"]
                    users := [("m0", { id := "m0", email := some "m@x", phone := none, metadata := none })]
                    emails := [("m@x", "m0")]
                    codes := [("GOLD", { maxUses := 5, currentUses := 0 })]
                    signupCutoff := -1 }

/-- State for the C3 failing input: creator `"m0"` is alone on the list and
holds code `"ABC123"` created with `minBumpPositions = -5` (the code never
validates bump signs). -/
def c3State : State :=
  { emptyState with waitlist := ["m0"]
                    users := [("m0", { id := "m0", email := some "m@x", phone := none, metadata := none })]
                    emails := [("m@x", "m0")]
                    inviteCodes := [("ABC123", "m0")]
                    inviteCodeBumps := [("ABC123", -5)]
                    userInviteCodes := [("m0", 1)]
                    userCodeSets := [("m0", ["ABC123"])] }

/-- C2 scenario state: single creator `"m0"` holding code `"C"` with
`minBumpPositions = 3`. -/
def c2State : State :=
  { emptyState with waitlist := ["m0"]
                    users := [("m0", { id := "m0", email := some "m@x", phone := none, metadata := none })]
                    emails := [("m@x", "m0")]
                    inviteCodes := [("C", "m0")]
                    inviteCodeBumps := [("C", 3)]
                    userInviteCodes := [("m0", 1)]
                    userCodeSets := [("m0", ["C"])] }

/-- C2 scenario call data (`use(C, {email:"x"}, 0)`). -/
def c2Data : UserData := { email := some "x", phone := none, metadata := none }

/-- The state after the C2 scenario call. -/
def c2After : State := (useInviteCode c2State "C" c2Data 0 "new1").2

/-- A Redis hash has at most one binding per field; association lists
reachable through `hset`/`hdel` from the empty hash keep their keys
duplicate-free. -/
def keysNodup (h : List (String × α)) : Prop := (h.map Prod.fst).Nodup

/-- The community-code invariant of the data model: the `HINCRBY` counter
of a code is between 0 and the code's `maxUses`; a counter without a codes
record is 0 (its lifecycle is paired with the record by
`createCommunityCode` / `deleteCommunityCode`).  The two `keysNodup`
conjuncts record that the hashes are genuine Redis hashes (one binding per
field). -/
def codeInv (s : State) (c : String) : Prop :=
  keysNodup s.codes ∧ keysNodup s.codeUses ∧
  0 ≤ usesOf s c ∧
  (∀ info, hget s.codes c = some info → usesOf s c ≤ info.maxUses) ∧
  (hget s.codes c = none → usesOf s c = 0)

/-- A serial sequence of `useCommunityCode` calls, one email identity per
call (the concurrent `N + k` race of the spec replayed in commit order). -/
def useSeq (s : State) (code : String) : List String → List (Except String Unit) × State
  | [] => ([], s)
  | e :: es =>
    (((useCommunityCode s code { email := some e, phone := none, metadata := none }).1 ::
        (useSeq (useCommunityCode s code
          { email := some e, phone := none, metadata := none }).2 code es).1),
     (useSeq (useCommunityCode s code
       { email := some e, phone := none, metadata := none }).2 code es).2)

/-- A member that is in the signed-up set and has a stored record. -/
def memberPinned (s : State) (id : String) : Prop :=
  id ∈ s.signedUp ∧ (hget s.users id).isSome = true

/-- One-member state at cutoff 1, where `"m0"` can sign up. -/
def c8State : State :=
  { emptyState with waitlist := ["m0"]
                    users := [("m0", { id := "m0", email := some "m@x", phone := none, metadata := none })]
                    emails := [("m@x", "m0")]
                    signupCutoff := 1 }

theorem hget_hset_self (h : List (String × α)) (k : String) (v : α) :
    hget (hset h k v) k = some v := by
  induction h with
  | nil => simp [hget, hset]
  | cons p t ih =>
    obtain ⟨k1, v1⟩ := p
    by_cases hk : k1 = k <;> simp [hget, hset, hk, ih]

theorem hget_hset_ne (h : List (String × α)) (k k2 : String) (v : α) (hne : k2 ≠ k) :
    hget (hset h k v) k2 = hget h k2 := by
  have hne' : k ≠ k2 := Ne.symm hne
  induction h with
  | nil => simp [hget, hset, hne']
  | cons p t ih =>
    obtain ⟨k1, v1⟩ := p
    by_cases hk : k1 = k
    · subst hk
      simp [hget, hset, hne']
    · by_cases hk2 : k1 = k2 <;> simp [hget, hset, hk, hk2, hne, ih]

theorem hget_hdel_ne (h : List (String × α)) (k k2 : String) (hne : k2 ≠ k) :
    hget (hdel h k) k2 = hget h k2 := by
  have hne' : k ≠ k2 := Ne.symm hne
  induction h with
  | nil => simp [hdel]
  | cons p t ih =>
    obtain ⟨k1, v1⟩ := p
    by_cases hk : k1 = k
    · subst hk
      simp [hget, hdel, hne']
    · by_cases hk2 : k1 = k2 <;> simp [hget, hdel, hk, hk2, hne, ih]

theorem isSome_hget_hset (h : List (String × α)) (k k2 : String) (v : α)
    (hs : (hget h k2).isSome) : (hget (hset h k v) k2).isSome := by
  by_cases hk : k2 = k
  · subst hk
    simp [hget_hset_self]
  · rwa [hget_hset_ne h k k2 v hk]

theorem mem_sadd_iff (l : List String) (x y : String) :
    y ∈ sadd l x ↔ y = x ∨ y ∈ l := by
  by_cases hx : l.contains x
  · have hx' : x ∈ l := by simpa using hx
    simp only [sadd, if_pos hx]
    constructor
    · exact Or.inr
    · rintro (rfl | hy)
      · exact hx'
      · exact hy
  · simp only [sadd, if_neg hx, List.mem_append, List.mem_singleton]
    tauto

theorem mem_sadd_of_mem (l : List String) (x y : String) (h : y ∈ l) : y ∈ sadd l x :=
  (mem_sadd_iff l x y).mpr (Or.inr h)

theorem contains_sadd_of_contains (l : List String) (x y : String)
    (h : l.contains y = true) : (sadd l x).contains y = true := by
  have : y ∈ l := by simpa using h
  simpa using mem_sadd_of_mem l x y this

/-! ## Lemmas about the Lua position scan -/

theorem positionOf_eq_zero_of_not_mem (l : List String) (id : String) (h : id ∉ l) :
    positionOf l id = 0 := by
  induction l with
  | nil => simp [positionOf]
  | cons a as ih =>
    have ha : a ≠ id := fun he => h (he ▸ List.mem_cons_self a as)
    have has : id ∉ as := fun hm => h (List.mem_cons_of_mem a hm)
    simp [positionOf, ha, ih has]

theorem positionOf_pos_of_mem (l : List String) (id : String) (h : id ∈ l) :
    0 < positionOf l id := by
  induction l with
  | nil => simp at h
  | cons a as ih =>
    by_cases ha : a = id
    · simp [positionOf, ha]
    · have has : id ∈ as := by
        rcases List.mem_cons.mp h with h1 | h1
        · exact absurd h1.symm ha
        · exact h1
      have := ih has
      rcases hp : positionOf as id with _ | n
      · omega
      · simp [positionOf, ha, hp]

theorem positionOf_eq_zero_iff (l : List String) (id : String) :
    positionOf l id = 0 ↔ id ∉ l := by
  constructor
  · intro h hmem
    have := positionOf_pos_of_mem l id hmem
    omega
  · exact positionOf_eq_zero_of_not_mem l id

theorem positionOf_cons_ne (a : String) (as : List String) (id : String) (ha : a ≠ id) :
    positionOf (a :: as) id =
      match positionOf as id with
      | 0 => 0
      | n + 1 => n + 2 := by
  simp [positionOf, ha]

theorem positionOf_cons_ne_of_pos (a : String) (as : List String) (id : String)
    (ha : a ≠ id) (n : Nat) (hpos : positionOf as id = n + 1) :
    positionOf (a :: as) id = n + 2 := by
  rw [positionOf_cons_ne a as id ha, hpos]

theorem positionOf_insertIdx_self (id : String) :
    ∀ (k : Nat) (m : List String), id ∉ m → k ≤ m.length →
      positionOf (List.insertIdx k id m) id = k + 1 := by
  intro k
  induction k with
  | zero =>
    intro m _ _
    simp [List.insertIdx_zero, positionOf]
  | succ k ih =>
    intro m hm hk
    cases m with
    | nil => simp at hk
    | cons a as =>
      have ha : a ≠ id := fun he => hm (he ▸ List.mem_cons_self a as)
      have has : id ∉ as := fun h => hm (List.mem_cons_of_mem a h)
      have hk' : k ≤ as.length := by simpa using hk
      rw [List.insertIdx_succ_cons, positionOf_cons_ne a _ id ha, ih as has hk']

theorem positionOf_append_last (y : String) :
    ∀ (m : List String), y ∉ m → positionOf (m ++ [y]) y = m.length + 1 := by
  intro m
  induction m with
  | nil => simp [positionOf]
  | cons a as ih =>
    intro hm
    have ha : a ≠ y := fun he => hm (he ▸ List.mem_cons_self a as)
    have has : y ∉ as := fun h => hm (List.mem_cons_of_mem a h)
    simp [positionOf, ha, ih has]

theorem positionOf_insertIdx_append (x y : String) (hxy : x ≠ y) :
    ∀ (k : Nat) (m : List String), y ∉ m → k ≤ m.length →
      positionOf (List.insertIdx k x (m ++ [y])) y = m.length + 2 := by
  intro k
  induction k with
  | zero =>
    intro m hm _
    simp [List.insertIdx_zero, positionOf, hxy, positionOf_append_last y m hm]
  | succ k ih =>
    intro m hm hk
    cases m with
    | nil => simp at hk
    | cons a as =>
      have ha : a ≠ y := fun he => hm (he ▸ List.mem_cons_self a as)
      have has : y ∉ as := fun h => hm (List.mem_cons_of_mem a h)
      have hk' : k ≤ as.length := by simpa using hk
      rw [List.cons_append, List.insertIdx_succ_cons, positionOf_cons_ne a _ y ha,
        ih as has hk']
      simp

theorem linsertBefore_eq_insertIdx (x : String) :
    ∀ (k : Nat) (l : List String), l.Nodup → ∀ (hk : k < l.length),
      linsertBefore l (l.get ⟨k, hk⟩) x = List.insertIdx k x l := by
  intro k
  induction k with
  | zero =>
    intro l _ hk
    cases l with
    | nil => simp at hk
    | cons a as => simp [linsertBefore, List.insertIdx_zero]
  | succ k ih =>
    intro l hnd hk
    cases l with
    | nil => simp at hk
    | cons a as =>
      have hk' : k < as.length := by simpa using hk
      have hget_mem : as.get ⟨k, hk'⟩ ∈ as := as.get_mem k hk'
      have ha : a ≠ as.get ⟨k, hk'⟩ := by
        intro he
        exact (List.nodup_cons.mp hnd).1 (he ▸ hget_mem)
      have hstep : (a :: as).get ⟨k + 1, hk⟩ = as.get ⟨k, hk'⟩ := rfl
      rw [hstep]
      simp only [linsertBefore]
      rw [if_neg ha, ih as (List.nodup_cons.mp hnd).2 hk', List.insertIdx_succ_cons]

theorem erase_insertIdx (x : String) :
    ∀ (k : Nat) (m : List String), x ∉ m → k ≤ m.length →
      (List.insertIdx k x m).erase x = m := by
  intro k
  induction k with
  | zero =>
    intro m _ _
    simp [List.insertIdx_zero]
  | succ k ih =>
    intro m hm hk
    cases m with
    | nil => simp at hk
    | cons a as =>
      have ha : a ≠ x := fun he => hm (he ▸ List.mem_cons_self a as)
      have has : x ∉ as := fun h => hm (List.mem_cons_of_mem a h)
      have hk' : k ≤ as.length := by simpa using hk
      rw [List.insertIdx_succ_cons]
      simp [List.erase_cons, ha, ih as has hk']

theorem insertIdx_perm (x : String) :
    ∀ (k : Nat) (m : List String), k ≤ m.length →
      List.Perm (List.insertIdx k x m) (x :: m) := by
  intro k
  induction k with
  | zero =>
    intro m _
    simp [List.insertIdx_zero]
  | succ k ih =>
    intro m hk
    cases m with
    | nil => simp at hk
    | cons a as =>
      have hk' : k ≤ as.length := by simpa using hk
      rw [List.insertIdx_succ_cons]
      exact ((ih as hk').cons a).trans (List.Perm.swap x a as)

/-! ## Behaviour of one move-script execution -/

theorem moveUserScript_regular (l : List String) (id : String) (t : Nat)
    (hnd : l.Nodup) (hmem : id ∈ l) (ht : t = 1 ∨ (2 ≤ t ∧ t < l.length)) :
    moveUserScript l id (t : Int) = (1, List.insertIdx (t - 1) id (l.erase id)) := by
  have hn : 1 ≤ l.length := List.length_pos.mpr (List.ne_nil_of_mem hmem)
  have hlen1 : (l.erase id).length = l.length - 1 := List.length_erase_of_mem hmem
  have ht1 : 1 ≤ t := by rcases ht with rfl | ⟨h, _⟩ <;> omega
  have htle : t ≤ l.length := by rcases ht with rfl | ⟨_, h⟩ <;> omega
  have hcA : ¬((l.length : Int) = 0 ∨ (t : Int) < 1 ∨ (t : Int) > (l.length : Int) + 1) := by
    omega
  unfold moveUserScript
  rw [if_neg hcA]
  rcases ht with rfl | ⟨ht2, htlt⟩
  · rw [if_pos (by norm_num)]
    simp
  · have hcB : ¬((t : Int) = 1) := by omega
    have hcC : ¬((t : Int) > (l.length : Int)) := by omega
    rw [if_neg hcB, if_neg hcC]
    have hidx : ((t : Int) - 1).toNat = t - 1 := by omega
    have hklt : t - 1 < (l.erase id).length := by omega
    rw [hidx, List.getElem?_eq_getElem hklt]
    show (1, linsertBefore (l.erase id) ((l.erase id).get ⟨t - 1, hklt⟩) id) =
      (1, List.insertIdx (t - 1) id (l.erase id))
    rw [linsertBefore_eq_insertIdx id (t - 1) (l.erase id) (hnd.erase id) hklt]

theorem moveUserScript_last_first (l : List String) (id : String) (t : Nat)
    (hmem : id ∈ l) (h2 : 2 ≤ t) (heq : t = l.length) :
    moveUserScript l id (t : Int) = (0, l.erase id) := by
  have hlen1 : (l.erase id).length = l.length - 1 := List.length_erase_of_mem hmem
  have hcA : ¬((l.length : Int) = 0 ∨ (t : Int) < 1 ∨ (t : Int) > (l.length : Int) + 1) := by
    omega
  have hcB : ¬((t : Int) = 1) := by omega
  have hcC : ¬((t : Int) > (l.length : Int)) := by omega
  unfold moveUserScript
  rw [if_neg hcA, if_neg hcB, if_neg hcC]
  have hidx : ((t : Int) - 1).toNat = t - 1 := by omega
  have hge : (l.erase id).length ≤ t - 1 := by omega
  rw [hidx, List.getElem?_eq_none hge]

theorem moveUserScript_last_second (l1 : List String) (id : String) (t : Nat)
    (hnm : id ∉ l1) (h2 : 2 ≤ t) (heq : t = l1.length + 1) :
    moveUserScript l1 id (t : Int) = (1, l1 ++ [id]) := by
  have hcA : ¬((l1.length : Int) = 0 ∨ (t : Int) < 1 ∨ (t : Int) > (l1.length : Int) + 1) := by
    omega
  have hcB : ¬((t : Int) = 1) := by omega
  have hcC : (t : Int) > (l1.length : Int) := by omega
  unfold moveUserScript
  rw [if_neg hcA, if_neg hcB, if_pos hcC, List.erase_of_not_mem hnm]

/-! ## Claim C1: `moveUser` repositioning -/

/-- **C1** (amended).  For every duplicate-free waitlist state with `id`
present and `targetPosition` in `[1, length]`, provided the member is not
signed up and neither its current position nor the target position falls
within the signup cutoff, `moveUser` (with its internal retry loop, run
without contention) returns `true`, repositions `id` to `targetPosition`,
keeps the other members in their original relative order, and leaves the
order a duplicate-free permutation of the same ids.  (The literal claim,
without the signed-up/cutoff provisos, is refuted by
`c1_moveUser_literal_counterexample`.) -/
theorem c1_moveUser_repositions_in_range (s : State) (id : String) (t : Nat)
    (hnd : s.waitlist.Nodup) (hmem : id ∈ s.waitlist)
    (h1 : 1 ≤ t) (h2 : t ≤ s.waitlist.length)
    (hsu : s.signedUp.contains id = false)
    (hcur : s.signupCutoff < (positionOf s.waitlist id : Int))
    (htgt : s.signupCutoff < (t : Int)) :
    moveUser s id (t : Int) =
      (Except.ok true, { s with waitlist := List.insertIdx (t - 1) id (s.waitlist.erase id) }) ∧
    positionOf (List.insertIdx (t - 1) id (s.waitlist.erase id)) id = t ∧
    (List.insertIdx (t - 1) id (s.waitlist.erase id)).erase id = s.waitlist.erase id ∧
    List.Perm (List.insertIdx (t - 1) id (s.waitlist.erase id)) s.waitlist ∧
    (List.insertIdx (t - 1) id (s.waitlist.erase id)).Nodup := by
  have hnm : id ∉ s.waitlist.erase id := hnd.not_mem_erase
  have hlen1 : (s.waitlist.erase id).length = s.waitlist.length - 1 :=
    List.length_erase_of_mem hmem
  have hn : 1 ≤ s.waitlist.length := List.length_pos.mpr (List.ne_nil_of_mem hmem)
  have hk : t - 1 ≤ (s.waitlist.erase id).length := by omega
  have hperm : List.Perm (List.insertIdx (t - 1) id (s.waitlist.erase id)) s.waitlist :=
    (insertIdx_perm id (t - 1) (s.waitlist.erase id) hk).trans
      (List.perm_cons_erase hmem).symm
  have hg1 : ¬(isUserSignedUp s id = true) := by
    intro hcon
    unfold isUserSignedUp at hcon
    rw [hsu] at hcon
    exact Bool.false_ne_true hcon
  have hg2 : ¬((positionOf s.waitlist id : Int) ≤ s.signupCutoff) := not_le.mpr hcur
  have hg3 : ¬((t : Int) ≤ s.signupCutoff) := not_le.mpr htgt
  refine ⟨?_, ?_, erase_insertIdx id (t - 1) _ hnm hk, hperm, hperm.nodup_iff.mpr hnd⟩
  · by_cases hcase : t = s.waitlist.length ∧ 2 ≤ t
    · obtain ⟨heq, h2t⟩ := hcase
      have hfirst := moveUserScript_last_first s.waitlist id t hmem h2t heq
      have hsecond := moveUserScript_last_second (s.waitlist.erase id) id t hnm h2t (by omega)
      have hins : List.insertIdx (t - 1) id (s.waitlist.erase id) =
          s.waitlist.erase id ++ [id] := by
        have he : t - 1 = (s.waitlist.erase id).length := by omega
        rw [he, List.insertIdx_length_self]
      unfold moveUser
      rw [if_neg hg1, if_neg hg2, if_neg hg3]
      simp only [hfirst, hsecond, hins]
      simp
    · have hreg : t = 1 ∨ (2 ≤ t ∧ t < s.waitlist.length) := by omega
      have hscript := moveUserScript_regular s.waitlist id t hnd hmem hreg
      unfold moveUser
      rw [if_neg hg1, if_neg hg2, if_neg hg3]
      simp only [hscript]
      simp
  · have hp := positionOf_insertIdx_self id (t - 1) (s.waitlist.erase id) hnm hk
    omega

/-- **C1** counterexample to the literal claim: `"m0"` is present and the
target position 1 lies in `[1, length]`, yet `moveUser` raises the
signed-up error (and hence does not return `true`). -/
theorem c1_moveUser_literal_counterexample :
    moveUser c1CexState "m0" 1 =
      (Except.error "Cannot move user that has already signed up", c1CexState) := by
  rfl

/-- **C1** witness: instantiation of the amended theorem on a concrete
state. -/
theorem c1_moveUser_repositions_in_range_witness :
    moveUser c1WitnessState "b" 3 =
      (Except.ok true, { c1WitnessState with waitlist := ["a", "c", "b"] }) := by
  have h := c1_moveUser_repositions_in_range c1WitnessState "b" 3 (by decide) (by decide)
    (by decide) (by decide) (by decide) (by decide) (by decide)
  exact h.1

/-! ## Claim C6: signup cutoff 0 -/

/-- **C6**.  The claim (and the code's own doc comments, lines 33-35 and
140-142) says cutoff 0 means everybody is eligible.  The code does the
opposite: with `signupCutoff = 0`, `canUserSignUp` is `false` for every id
and `markUserAsSignedUp` fails for every id without mutating anything,
because an existing member's position is at least 1 and the code requires
`position <= cutoff`. -/
theorem c6_cutoff_zero_blocks_everyone (s : State) (id : String)
    (hcut : s.signupCutoff = 0) :
    canUserSignUp s id = false ∧ markUserAsSignedUp s id = (false, s) := by
  constructor
  · unfold canUserSignUp
    rw [hcut]
    rcases Nat.eq_zero_or_pos (positionOf s.waitlist id) with h | h
    · simp [h]
    · have h2 : ¬((positionOf s.waitlist id : Int) ≤ 0) := by omega
      simp [h2]
  · have hcond : positionOf s.waitlist id = 0 ∨
        ((positionOf s.waitlist id : Int) > s.signupCutoff) := by
      rw [hcut]
      omega
    simp only [markUserAsSignedUp]
    rw [if_pos hcond]

/-- **C6** witness: the failing input evaluated concretely. -/
theorem c6_cutoff_zero_blocks_everyone_witness :
    canUserSignUp c6State "m0" = false ∧ markUserAsSignedUp c6State "m0" = (false, c6State) :=
  c6_cutoff_zero_blocks_everyone c6State "m0" rfl

/-! ## Claim C7: createInviteCode for an absent creator -/

/-- **C7** counterexample to the claim as stated: on the empty state the
creator `"ghost"` is not a live member (position 0, no record), yet
`createInviteCode` succeeds and returns the generated code instead of a
not-found error. -/
theorem c7_createInviteCode_counterexample :
    (createInviteCode emptyState "ghost" 5 ["ABC123"]).1 = Except.ok "ABC123" ∧
    positionOf emptyState.waitlist "ghost" = 0 ∧
    hget emptyState.users "ghost" = none :=
  ⟨rfl, rfl, rfl⟩

/-- **C7** (amended).  `createInviteCode` performs no existence check on its
creator (the Lua script receives the users hash as `KEYS[2]` but never
reads it): for every state and every creatorId absent from the waitlist and
the users hash, the call succeeds whenever the creator is not signed up,
its outstanding-code count is below the per-creator limit, and an unused
code value is generated within the 50 attempts. -/
theorem c7_createInviteCode_ignores_absent_creator (s : State) (creatorId : String)
    (minBump : Int) (cands : List String) (c0 : String)
    (habs1 : positionOf s.waitlist creatorId = 0)
    (habs2 : hget s.users creatorId = none)
    (hsu : s.signedUp.contains creatorId = false)
    (hcount : (hget s.userInviteCodes creatorId).getD 0 < s.inviteCodeLimit)
    (hfresh : firstFreshCode s.inviteCodes (cands.take 50) = some c0) :
    (createInviteCode s creatorId minBump cands).1 = Except.ok c0 := by
  have hg1 : ¬(isUserSignedUp s creatorId = true) := by
    intro hcon
    unfold isUserSignedUp at hcon
    rw [hsu] at hcon
    exact Bool.false_ne_true hcon
  have hg2 : ¬((hget s.userInviteCodes creatorId).getD 0 ≥ s.inviteCodeLimit) :=
    not_le.mpr hcount
  simp only [createInviteCode, hfresh]
  rw [if_neg hg1, if_neg hg2]

/-- **C7** witness for the amended statement. -/
theorem c7_createInviteCode_ignores_absent_creator_witness :
    (createInviteCode emptyState "ghost2" 7 ["XYZ999"]).1 = Except.ok "XYZ999" :=
  c7_createInviteCode_ignores_absent_creator emptyState "ghost2" 7 ["XYZ999"] "XYZ999"
    rfl rfl rfl (by decide) rfl

/-! ## Claims C4 and C10: duplicate-identity `insertUser` -/

/-- Shared characterisation of the duplicate path of `insertUser`: when the
script's identity lookup hits an existing id, the call returns that id, its
current position and `already_existed = true`; the list and both identity
hashes are untouched, but the TS wrapper overwrites the member's user
record with the new call's payload. -/
theorem insertUser_duplicate_eq (s : State) (newId : String) (d : UserData) (mid : String)
    (hdup : existingUserLookup s (d.email.getD "") (d.phone.getD "") = some mid) :
    insertUser s newId d =
      (Except.ok { id := mid, position := positionOf s.waitlist mid, already_existed := true },
       { s with users := hset s.users mid
                  { id := mid, email := d.email, phone := d.phone, metadata := d.metadata } }) := by
  have hval : ¬(d.email.getD "" = "" ∧ d.phone.getD "" = "") := by
    rintro ⟨h1, h2⟩
    rw [h1, h2] at hdup
    unfold existingUserLookup at hdup
    simp at hdup
  simp only [insertUser]
  rw [if_neg hval, hdup]

/-- **C4** counterexample: the duplicate call returns the existing member,
yet the users hash is mutated - the stored record loses its phone. -/
theorem c4_insertUser_counterexample :
    (insertUser c4State "fresh" c4Data).1 =
      Except.ok { id := "A", position := 1, already_existed := true } ∧
    (insertUser c4State "fresh" c4Data).2.users ≠ c4State.users ∧
    hget (insertUser c4State "fresh" c4Data).2.users "A" =
      some { id := "A", email := some "a@x", phone := none, metadata := none } := by
  refine ⟨rfl, ?_, rfl⟩
  decide

/-- **C4** (amended).  When the given email or phone already resolves to an
id `mid`, `insertUser` returns `mid`, its current position and
`already_existed = true`, and leaves the order and both identity mappings
unchanged; however, contrary to the claim, `mid`'s stored member record is
not left as before: it is overwritten with the new call's payload. -/
theorem c4_insertUser_duplicate_no_reinsert (s : State) (newId : String) (d : UserData)
    (mid : String)
    (hdup : existingUserLookup s (d.email.getD "") (d.phone.getD "") = some mid) :
    (insertUser s newId d).1 =
      Except.ok { id := mid, position := positionOf s.waitlist mid, already_existed := true } ∧
    (insertUser s newId d).2.waitlist = s.waitlist ∧
    (insertUser s newId d).2.emails = s.emails ∧
    (insertUser s newId d).2.phones = s.phones ∧
    (insertUser s newId d).2.users =
      hset s.users mid { id := mid, email := d.email, phone := d.phone, metadata := d.metadata } := by
  rw [insertUser_duplicate_eq s newId d mid hdup]
  exact ⟨rfl, rfl, rfl, rfl, rfl⟩

/-- **C4** witness: the amended theorem instantiated at the concrete
duplicate call. -/
theorem c4_insertUser_duplicate_no_reinsert_witness :
    (insertUser c4State "fresh" c4Data).1 =
      Except.ok { id := "A", position := 1, already_existed := true } ∧
    (insertUser c4State "fresh" c4Data).2.waitlist = c4State.waitlist ∧
    (insertUser c4State "fresh" c4Data).2.emails = c4State.emails ∧
    (insertUser c4State "fresh" c4Data).2.phones = c4State.phones ∧
    (insertUser c4State "fresh" c4Data).2.users =
      hset c4State.users "A"
        { id := "A", email := some "a@x", phone := none, metadata := none } :=
  c4_insertUser_duplicate_no_reinsert c4State "fresh" c4Data "A" rfl

/-- **C10**.  When `insertUser` is called with both an email and a phone
and the email already resolves to a live member `A`, the call returns `A`
with `already_existed = true` and the phone is never consulted: the phones
hash is unchanged and no error is raised, even if the phone resolves to a
different member. -/
theorem c10_insertUser_email_precedence (s : State) (newId : String) (d : UserData)
    (e : String) (he : d.email = some e) (hne : e ≠ "")
    (aid : String) (hmap : hget s.emails e = some aid) :
    (insertUser s newId d).1 =
      Except.ok { id := aid, position := positionOf s.waitlist aid, already_existed := true } ∧
    (insertUser s newId d).2.phones = s.phones ∧
    (insertUser s newId d).2.emails = s.emails ∧
    (insertUser s newId d).2.waitlist = s.waitlist := by
  have hdup : existingUserLookup s (d.email.getD "") (d.phone.getD "") = some aid := by
    rw [he]
    unfold existingUserLookup
    simp [hne, hmap]
  rw [insertUser_duplicate_eq s newId d aid hdup]
  exact ⟨rfl, rfl, rfl, rfl⟩

/-- **C10** witness: email maps to `"A"`, phone maps to the distinct
member `"B"`; the call still returns `"A"` and the phones hash is
untouched. -/
theorem c10_insertUser_email_precedence_witness :
    (insertUser c10State "fresh" { email := some "a@x", phone := some "+1", metadata := none }).1 =
      Except.ok { id := "A", position := 1, already_existed := true } ∧
    (insertUser c10State "fresh" { email := some "a@x", phone := some "+1", metadata := none }).2.phones =
      c10State.phones ∧
    (insertUser c10State "fresh" { email := some "a@x", phone := some "+1", metadata := none }).2.emails =
      c10State.emails ∧
    (insertUser c10State "fresh" { email := some "a@x", phone := some "+1", metadata := none }).2.waitlist =
      c10State.waitlist :=
  c10_insertUser_email_precedence c10State "fresh"
    { email := some "a@x", phone := some "+1", metadata := none } "a@x" rfl (by decide) "A" rfl

/-! ## Behaviour of `useCommunityCode` (email-identity calls) -/

/-- Updating the uses counter leaves every per-code identity set alone. -/
theorem identsOf_set_codeUses (s : State) (x : List (String × Int)) (c : String) :
    identsOf { s with codeUses := x } c = identsOf s c := rfl

/-- Updating the codes hash and the uses counter leaves the identity sets
alone. -/
theorem identsOf_set_codes_codeUses (s : State) (y : List (String × CodeInfo))
    (x : List (String × Int)) (c : String) :
    identsOf { s with codes := y, codeUses := x } c = identsOf s c := rfl

/-- Success path of `useCommunityCode` for an email-only identity: the
counter is incremented, the JSON record updated, the email recorded in the
per-code identity set, and - when the email resolves in the identity index -
the resolved member is added to the signed-up set. -/
theorem useCommunityCode_success (s : State) (code : String) (d : UserData) (e : String)
    (he : d.email.getD "" = e) (hne : e ≠ "") (hp : d.phone.getD "" = "")
    (info : CodeInfo) (hcode : hget s.codes code = some info)
    (hlim : ¬(usesOf s code + 1 > info.maxUses))
    (hid : e ∉ identsOf s code) :
    useCommunityCode s code d =
      (Except.ok (),
       match hget s.emails e with
       | some mid =>
         { s with codeUses := hset s.codeUses code (usesOf s code + 1)
                  codes := hset s.codes code { maxUses := info.maxUses, currentUses := usesOf s code + 1 }
                  codeIdentities := hset s.codeIdentities code (sadd (identsOf s code) e)
                  signedUp := sadd s.signedUp mid }
       | none =>
         { s with codeUses := hset s.codeUses code (usesOf s code + 1)
                  codes := hset s.codes code { maxUses := info.maxUses, currentUses := usesOf s code + 1 }
                  codeIdentities := hset s.codeIdentities code (sadd (identsOf s code) e) }) := by
  simp only [useCommunityCode, he, hp, hcode, identsOf_set_codeUses]
  simp [hne, hlim, hid]
  cases hm : hget s.emails e <;> simp [hm, identsOf_set_codes_codeUses]

/-! ## Claim C9: community codes bypass the signup gate -/

/-- **C9**.  A successful `useCommunityCode` whose email resolves to a
member adds that member to the signed-up set unconditionally: the state `s`
is arbitrary here - no constraint on the member's position (it may even be
absent from the order) nor on `signupCutoff` (which may be -1), and the
eligibility check of `markUserAsSignedUp` is never consulted (lines
1544-1555 only do identity lookup plus `SADD`). -/
theorem c9_useCommunityCode_bypasses_gate (s : State) (code : String) (d : UserData)
    (e mid : String)
    (he : d.email.getD "" = e) (hne : e ≠ "") (hp : d.phone.getD "" = "")
    (info : CodeInfo) (hcode : hget s.codes code = some info)
    (hlim : usesOf s code + 1 ≤ info.maxUses)
    (hid : e ∉ identsOf s code)
    (hmail : hget s.emails e = some mid) :
    (useCommunityCode s code d).1 = Except.ok () ∧
    mid ∈ (useCommunityCode s code d).2.signedUp := by
  rw [useCommunityCode_success s code d e he hne hp info hcode (not_lt.mpr hlim) hid,
    hmail]
  exact ⟨rfl, (mem_sadd_iff s.signedUp mid mid).mpr (Or.inl rfl)⟩

/-- **C9** witness: with the cutoff at -1 (so `canUserSignUp` is `false`
for `"m0"`), using the community code with `"m0"`'s email still succeeds
and lands `"m0"` in the signed-up set. -/
theorem c9_useCommunityCode_bypasses_gate_witness :
    canUserSignUp c9State "m0" = false ∧
    (useCommunityCode c9State "GOLD" { email := some "m@x", phone := none, metadata := none }).1 =
      Except.ok () ∧
    "m0" ∈ (useCommunityCode c9State "GOLD"
      { email := some "m@x", phone := none, metadata := none }).2.signedUp := by
  have h := c9_useCommunityCode_bypasses_gate c9State "GOLD"
    { email := some "m@x", phone := none, metadata := none } "m@x" "m0" rfl (by decide) rfl
    { maxUses := 5, currentUses := 0 } rfl (by decide) (by decide) rfl
  exact ⟨by decide, h.1, h.2⟩

/-! ## Claim C3: failed `useInviteCode` leaves no trace -/

/-- **C3**.  Evaluation at the failing input: with effective bump
`max(-5, -5) = -5` the creator's target position 6 exceeds the list, so
`LINDEX` yields nil and the `LINSERT` call aborts the script - after the
code has been marked used, the new member appended, the email mapping
written, and the creator removed via `LREM`.  The call fails, yet the state
is mutated: the creator is gone from the order and the code is burned,
contradicting the claim that every failure leaves the state entirely
unchanged. -/
theorem c3_useInviteCode_failed_call_mutates_state :
    (useInviteCode c3State "ABC123"
      { email := some "x@y", phone := none, metadata := none } (-5) "new1").1 =
      Except.error "Lua redis lib command arguments must be strings or integers" ∧
    (useInviteCode c3State "ABC123"
      { email := some "x@y", phone := none, metadata := none } (-5) "new1").2.waitlist =
      ["new1"] ∧
    hget (useInviteCode c3State "ABC123"
      { email := some "x@y", phone := none, metadata := none } (-5) "new1").2.usedInviteCodes
      "ABC123" = some "new1" ∧
    hget (useInviteCode c3State "ABC123"
      { email := some "x@y", phone := none, metadata := none } (-5) "new1").2.emails
      "x@y" = some "new1" ∧
    (useInviteCode c3State "ABC123"
      { email := some "x@y", phone := none, metadata := none } (-5) "new1").2 ≠ c3State := by
  refine ⟨rfl, rfl, rfl, rfl, ?_⟩
  decide

/-! ## Claim C2: successful `useInviteCode` -/

/-- Inversion of the invite-use Lua script on its success paths: the code
records who used it, the new member ends at the old length + 1, and the
creator lands exactly at `max(1, creatorPos - max(requestedBump, minBump))`. -/
theorem useInviteCodeScript_ok (s : State) (code newId email phone : String) (bump : Int)
    (hnd : s.waitlist.Nodup) (hfresh : newId ∉ s.waitlist)
    (rid : String) (sx : State)
    (h : useInviteCodeScript s code newId email phone bump = (Except.ok rid, sx)) :
    ∃ creatorId,
      hget s.inviteCodes code = some creatorId ∧
      creatorId ∈ s.waitlist ∧
      hget sx.usedInviteCodes code = some newId ∧
      positionOf sx.waitlist newId = s.waitlist.length + 1 ∧
      positionOf sx.waitlist creatorId =
        (max 1 ((positionOf s.waitlist creatorId : Int) -
          max bump ((hget s.inviteCodeBumps code).getD 0))).toNat := by
  unfold useInviteCodeScript at h
  split at h
  · exact absurd h (by simp)
  · rename_i creatorId hcid
    split at h
    · exact absurd h (by simp)
    split at h
    · exact absurd h (by simp)
    split at h
    · exact absurd h (by simp)
    split at h
    · exact absurd h (by simp)
    split at h
    · exact absurd h (by simp)
    rename_i hpos
    have hmem : creatorId ∈ s.waitlist := by
      by_contra hcon
      exact hpos (positionOf_eq_zero_of_not_mem s.waitlist creatorId hcon)
    have hne : creatorId ≠ newId := fun he => hfresh (he ▸ hmem)
    have hn1 : 1 ≤ s.waitlist.length := List.length_pos.mpr (List.ne_nil_of_mem hmem)
    have hnm' : newId ∉ s.waitlist.erase creatorId :=
      fun hm => hfresh (List.mem_of_mem_erase hm)
    have hlm : (s.waitlist.erase creatorId).length = s.waitlist.length - 1 :=
      List.length_erase_of_mem hmem
    have hsplit : (s.waitlist ++ [newId]).erase creatorId =
        s.waitlist.erase creatorId ++ [newId] := List.erase_append_left [newId] hmem
    have hnd2 : (s.waitlist ++ [newId]).Nodup := by
      rw [List.nodup_append]
      exact ⟨hnd, List.nodup_singleton newId,
        fun a ha hb => hfresh (List.mem_singleton.mp hb ▸ ha)⟩
    split at h
    · -- targetPos = 1: the creator is prepended
      rename_i htp
      simp only [Prod.mk.injEq] at h
      obtain ⟨h1, h2⟩ := h
      subst h2
      refine ⟨creatorId, hcid, hmem, hget_hset_self _ _ _, ?_, ?_⟩
      · show positionOf (creatorId :: (s.waitlist ++ [newId]).erase creatorId) newId =
          s.waitlist.length + 1
        rw [hsplit, positionOf_cons_ne_of_pos creatorId _ newId hne _
          (positionOf_append_last newId (s.waitlist.erase creatorId) hnm')]
        omega
      · show positionOf (creatorId :: (s.waitlist ++ [newId]).erase creatorId) creatorId =
          (max 1 ((positionOf s.waitlist creatorId : Int) -
            max bump ((hget s.inviteCodeBumps code).getD 0))).toNat
        rw [htp]
        simp [positionOf]
    · -- interior target: LINSERT before the pivot
      rename_i htp
      split at h
      · exact absurd h (by simp)
      · rename_i pivot hpv
        simp only [Prod.mk.injEq] at h
        obtain ⟨h1, h2⟩ := h
        subst h2
        obtain ⟨hk, hpe⟩ := List.getElem?_eq_some_iff.mp hpv
        have hpe' : ((s.waitlist ++ [newId]).erase creatorId).get
            ⟨(max 1 ((positionOf s.waitlist creatorId : Int) -
              max bump ((hget s.inviteCodeBumps code).getD 0)) - 1).toNat, hk⟩ = pivot := hpe
        have hnd3 : ((s.waitlist ++ [newId]).erase creatorId).Nodup := hnd2.erase creatorId
        have hcnm : creatorId ∉ (s.waitlist ++ [newId]).erase creatorId :=
          hnd2.not_mem_erase
        have htp1 : (1 : Int) ≤ max 1 ((positionOf s.waitlist creatorId : Int) -
            max bump ((hget s.inviteCodeBumps code).getD 0)) := le_max_left 1 _
        have hlen3 : ((s.waitlist ++ [newId]).erase creatorId).length = s.waitlist.length := by
          rw [hsplit]
          simp [hlm]
          omega
        rw [← hpe', linsertBefore_eq_insertIdx creatorId _ _ hnd3 hk]
        refine ⟨creatorId, hcid, hmem, hget_hset_self _ _ _, ?_, ?_⟩
        · show positionOf (List.insertIdx _ creatorId ((s.waitlist ++ [newId]).erase creatorId))
            newId = s.waitlist.length + 1
          rw [hsplit] at hk ⊢
          have hkle : (max 1 ((positionOf s.waitlist creatorId : Int) -
              max bump ((hget s.inviteCodeBumps code).getD 0)) - 1).toNat ≤
              (s.waitlist.erase creatorId).length := by
            have := hk
            simp [hlm] at this
            omega
          rw [positionOf_insertIdx_append creatorId newId hne _
            (s.waitlist.erase creatorId) hnm' hkle]
          omega
        · show positionOf (List.insertIdx _ creatorId ((s.waitlist ++ [newId]).erase creatorId))
            creatorId = (max 1 ((positionOf s.waitlist creatorId : Int) -
              max bump ((hget s.inviteCodeBumps code).getD 0))).toNat
          rw [positionOf_insertIdx_self creatorId _ _ hcnm (Nat.le_of_lt hk)]
          omega

/-- **C2**.  A successful `useInviteCode(code, newMemberData, requestedBump)`
call (on a duplicate-free order, with a fresh uuid) marks the code used by
the new member, appends the new member at the end (position = old length
+ 1, which is also the returned position), and moves the creator from
`creatorPosition` to `max(1, creatorPosition - max(requestedBump,
minBumpPositions))` - all within the one script execution.  The scenario of
the claim (single creator, `minBumpPositions = 3`, requested bump 0, new
member at position 2, creator at position 1) is the witness below. -/
theorem c2_useInviteCode_success_effects (s : State) (code : String) (d : UserData)
    (bump : Int) (newId : String) (r : InsertResult) (s1 : State)
    (hnd : s.waitlist.Nodup) (hfresh : newId ∉ s.waitlist)
    (h : useInviteCode s code d bump newId = (Except.ok r, s1)) :
    ∃ creatorId,
      hget s.inviteCodes code = some creatorId ∧
      hget s1.usedInviteCodes code = some newId ∧
      r.id = newId ∧
      r.already_existed = false ∧
      r.position = s.waitlist.length + 1 ∧
      positionOf s1.waitlist newId = s.waitlist.length + 1 ∧
      positionOf s1.waitlist creatorId =
        (max 1 ((positionOf s.waitlist creatorId : Int) -
          max bump ((hget s.inviteCodeBumps code).getD 0))).toNat := by
  unfold useInviteCode at h
  split at h
  · exact absurd h (by simp)
  rename_i creatorId0 hcid0
  split at h
  · exact absurd h (by simp)
  split at h
  · exact absurd h (by simp)
  split at h
  · exact absurd h (by simp)
  split at h
  · exact absurd h (by simp)
  rename_i rid sx hscript
  simp only [Prod.mk.injEq] at h
  obtain ⟨h1, h2⟩ := h
  have hr : r =
      { id := newId, position := positionOf sx.waitlist newId, already_existed := false } :=
    (Except.ok.inj h1).symm
  subst h2
  obtain ⟨cid, hc1, hcm, hc2, hc3, hc4⟩ :=
    useInviteCodeScript_ok s code newId (d.email.getD "") (d.phone.getD "") bump
      hnd hfresh rid sx hscript
  refine ⟨cid, hc1, hc2, ?_, ?_, ?_, hc3, hc4⟩
  · rw [hr]
  · rw [hr]
  · rw [hr]
    exact hc3

/-- **C2** witness: the claim's scenario, via the theorem - the call
succeeds, the new member ends at position 2, and `positionOf(m0) = 1`. -/
theorem c2_useInviteCode_success_effects_witness :
    (useInviteCode c2State "C" c2Data 0 "new1").1 =
      Except.ok { id := "new1", position := 2, already_existed := false } ∧
    positionOf c2After.waitlist "m0" = 1 ∧
    positionOf c2After.waitlist "new1" = 2 ∧
    hget c2After.usedInviteCodes "C" = some "new1" := by
  have h := c2_useInviteCode_success_effects c2State "C" c2Data 0 "new1"
    { id := "new1", position := 2, already_existed := false } c2After
    (by decide) (by decide) rfl
  obtain ⟨cid, hc1, hc2, _, _, _, hc3, hc4⟩ := h
  have hcid : cid = "m0" :=
    Option.some.inj (hc1.symm.trans (by rfl))
  subst hcid
  refine ⟨rfl, ?_, ?_, hc2⟩
  · rw [hc4]
    rfl
  · rw [hc3]
    rfl

/-! ## Claim C5: community-code usage ceiling -/

theorem mem_keys_hset (h : List (String × α)) (k a : String) (v : α)
    (ha : a ∈ (hset h k v).map Prod.fst) : a = k ∨ a ∈ h.map Prod.fst := by
  induction h with
  | nil =>
    simp only [hset, List.map_cons, List.map_nil, List.mem_singleton] at ha
    exact Or.inl ha
  | cons p t ih =>
    obtain ⟨k1, v1⟩ := p
    by_cases hk : k1 = k
    · simp only [hset, if_pos hk, List.map_cons, List.mem_cons] at ha
      rcases ha with ha | ha
      · exact Or.inl ha
      · exact Or.inr (by simp only [List.map_cons, List.mem_cons]; exact Or.inr ha)
    · simp only [hset, if_neg hk, List.map_cons, List.mem_cons] at ha
      rcases ha with ha | ha
      · exact Or.inr (by simp only [List.map_cons, List.mem_cons]; exact Or.inl ha)
      · rcases ih ha with h1 | h1
        · exact Or.inl h1
        · exact Or.inr (by simp only [List.map_cons, List.mem_cons]; exact Or.inr h1)

theorem keysNodup_hset (h : List (String × α)) (k : String) (v : α)
    (hnd : keysNodup h) : keysNodup (hset h k v) := by
  induction h with
  | nil => simp [keysNodup, hset]
  | cons p t ih =>
    obtain ⟨k1, v1⟩ := p
    unfold keysNodup at hnd ⊢
    simp only [List.map_cons, List.nodup_cons] at hnd
    by_cases hk : k1 = k
    · subst hk
      simp only [hset, if_true]
      simp only [List.map_cons, List.nodup_cons]
      exact hnd
    · simp only [hset, if_neg hk, List.map_cons, List.nodup_cons]
      constructor
      · intro hc
        rcases mem_keys_hset t k k1 v hc with h1 | h1
        · exact hk h1
        · exact hnd.1 h1
      · exact ih hnd.2

theorem mem_keys_hdel (h : List (String × α)) (k a : String)
    (ha : a ∈ (hdel h k).map Prod.fst) : a ∈ h.map Prod.fst := by
  induction h with
  | nil => simp [hdel] at ha
  | cons p t ih =>
    obtain ⟨k1, v1⟩ := p
    by_cases hk : k1 = k
    · simp only [hdel, if_pos hk] at ha
      simp only [List.map_cons, List.mem_cons]
      exact Or.inr ha
    · simp only [hdel, if_neg hk, List.map_cons, List.mem_cons] at ha
      simp only [List.map_cons, List.mem_cons]
      rcases ha with ha | ha
      · exact Or.inl ha
      · exact Or.inr (ih ha)

theorem keysNodup_hdel (h : List (String × α)) (k : String)
    (hnd : keysNodup h) : keysNodup (hdel h k) := by
  induction h with
  | nil => simp [keysNodup, hdel]
  | cons p t ih =>
    obtain ⟨k1, v1⟩ := p
    unfold keysNodup at hnd ⊢
    simp only [List.map_cons, List.nodup_cons] at hnd
    by_cases hk : k1 = k
    · simp only [hdel, if_pos hk]
      exact hnd.2
    · simp only [hdel, if_neg hk, List.map_cons, List.nodup_cons]
      exact ⟨fun hc => hnd.1 (mem_keys_hdel t k k1 hc), ih hnd.2⟩

theorem hget_eq_none_of_not_mem_keys (h : List (String × α)) (k : String)
    (hk : k ∉ h.map Prod.fst) : hget h k = none := by
  induction h with
  | nil => rfl
  | cons p t ih =>
    obtain ⟨k1, v1⟩ := p
    simp only [List.map_cons, List.mem_cons] at hk
    push_neg at hk
    simp only [hget]
    rw [if_neg (fun he => hk.1 he.symm)]
    exact ih hk.2

theorem hget_hdel_self (h : List (String × α)) (k : String) (hnd : keysNodup h) :
    hget (hdel h k) k = none := by
  induction h with
  | nil => rfl
  | cons p t ih =>
    obtain ⟨k1, v1⟩ := p
    unfold keysNodup at hnd
    simp only [List.map_cons, List.nodup_cons] at hnd
    by_cases hk : k1 = k
    · subst hk
      simp only [hdel, if_pos rfl]
      exact hget_eq_none_of_not_mem_keys t k1 hnd.1
    · simp only [hdel, if_neg hk, hget]
      exact ih hnd.2

/-- `codeInv` only looks at the codes and uses hashes. -/
theorem codeInv_frame (s s1 : State) (c : String)
    (h1 : s1.codes = s.codes) (h2 : s1.codeUses = s.codeUses)
    (h : codeInv s c) : codeInv s1 c := by
  unfold codeInv keysNodup usesOf at h ⊢
  rw [h1, h2]
  exact h

/-- Over-limit path of `useCommunityCode`: the increment is compensated by
a decrement and the call reports the usage-limit failure. -/
theorem useCommunityCode_limit (s : State) (code : String) (d : UserData) (e : String)
    (he : d.email.getD "" = e) (hne : e ≠ "")
    (info : CodeInfo) (hcode : hget s.codes code = some info)
    (hlim : usesOf s code + 1 > info.maxUses) :
    useCommunityCode s code d =
      (Except.error "Code has reached usage limit",
       { s with codeUses := hset (hset s.codeUses code (usesOf s code + 1)) code
                  (usesOf s code + 1 - 1) }) := by
  simp only [useCommunityCode, he, hcode]
  simp [hne, hlim]

/-- Serial replay of distinct-identity uses of one community code: with `u`
uses already consumed out of `N`, the next `min(len, N - u)` calls succeed,
every further call reports the usage-limit failure, and the counter ends at
`min(u + len, N)`. -/
theorem useSeq_spec (code : String) (N : Nat) :
    ∀ (es : List String) (s : State) (u : Nat) (cu : Int),
      hget s.codes code = some { maxUses := (N : Int), currentUses := cu } →
      usesOf s code = (u : Int) → u ≤ N →
      es.Nodup → (∀ e ∈ es, e ≠ "" ∧ e ∉ identsOf s code) →
      (useSeq s code es).1 =
        List.replicate (min es.length (N - u)) (Except.ok ()) ++
        List.replicate (es.length - (N - u)) (Except.error "Code has reached usage limit") ∧
      usesOf (useSeq s code es).2 code = ((min (u + es.length) N : Nat) : Int) := by
  intro es
  induction es with
  | nil =>
    intro s u cu hcode huse hu _ _
    constructor
    · simp [useSeq]
    · have hmin : min (u + ([] : List String).length) N = u := by
        simp only [List.length_nil]
        omega
      simp only [useSeq, hmin]
      exact huse
  | cons e es ih =>
    intro s u cu hcode huse hu hnd hall
    obtain ⟨hne, hnotin⟩ := hall e (List.mem_cons_self e es)
    have hndt : es.Nodup := (List.nodup_cons.mp hnd).2
    have hnein : e ∉ es := (List.nodup_cons.mp hnd).1
    by_cases hu2 : u < N
    · -- capacity remains: this call succeeds
      have hlim : ¬(usesOf s code + 1 >
          ({ maxUses := (N : Int), currentUses := cu } : CodeInfo).maxUses) := by
        rw [huse]
        simp only [not_lt]
        omega
      have hsucc := useCommunityCode_success s code
        { email := some e, phone := none, metadata := none } e rfl hne rfl
        { maxUses := (N : Int), currentUses := cu } hcode hlim hnotin
      rcases hm : hget s.emails e with _ | mid
      · rw [hm] at hsucc
        simp only [useSeq, hsucc]
        have hcode2 : hget (hset s.codes code
            { maxUses := (N : Int), currentUses := usesOf s code + 1 }) code =
            some { maxUses := (N : Int), currentUses := usesOf s code + 1 } :=
          hget_hset_self s.codes code _
        have huse2 : (hget (hset s.codeUses code (usesOf s code + 1)) code).getD 0 =
            ((u + 1 : Nat) : Int) := by
          rw [hget_hset_self, Option.getD_some, huse]
          push_cast
          ring
        have hids2 : (hget (hset s.codeIdentities code (sadd (identsOf s code) e))
            code).getD [] = sadd (identsOf s code) e := by
          rw [hget_hset_self, Option.getD_some]
        have hall2 : ∀ x ∈ es, x ≠ "" ∧
            x ∉ (hget (hset s.codeIdentities code (sadd (identsOf s code) e)) code).getD [] := by
          intro x hx
          obtain ⟨hx1, hx2⟩ := hall x (List.mem_cons_of_mem e hx)
          refine ⟨hx1, ?_⟩
          rw [hids2]
          intro hmem
          rcases (mem_sadd_iff _ _ _).mp hmem with h1 | h1
          · exact hnein (h1 ▸ hx)
          · exact hx2 h1
        obtain ⟨ihr, ihu⟩ := ih ({ s with
            codeUses := hset s.codeUses code (usesOf s code + 1)
            codes := hset s.codes code
              { maxUses := (N : Int), currentUses := usesOf s code + 1 }
            codeIdentities := hset s.codeIdentities code
              (sadd (identsOf s code) e) } : State)
          (u + 1) (usesOf s code + 1) hcode2 huse2 (by omega) hndt hall2
        constructor
        · rw [ihr]
          have e1 : min (e :: es).length (N - u) = min es.length (N - (u + 1)) + 1 := by
            simp only [List.length_cons]
            omega
          have e2 : (e :: es).length - (N - u) = es.length - (N - (u + 1)) := by
            simp only [List.length_cons]
            omega
          rw [e1, e2, List.replicate_succ, List.cons_append]
        · rw [ihu]
          have e3 : min (u + 1 + es.length) N = min (u + (e :: es).length) N := by
            simp only [List.length_cons]
            omega
          rw [e3]
      · rw [hm] at hsucc
        simp only [useSeq, hsucc]
        have hcode2 : hget (hset s.codes code
            { maxUses := (N : Int), currentUses := usesOf s code + 1 }) code =
            some { maxUses := (N : Int), currentUses := usesOf s code + 1 } :=
          hget_hset_self s.codes code _
        have huse2 : (hget (hset s.codeUses code (usesOf s code + 1)) code).getD 0 =
            ((u + 1 : Nat) : Int) := by
          rw [hget_hset_self, Option.getD_some, huse]
          push_cast
          ring
        have hids2 : (hget (hset s.codeIdentities code (sadd (identsOf s code) e))
            code).getD [] = sadd (identsOf s code) e := by
          rw [hget_hset_self, Option.getD_some]
        have hall2 : ∀ x ∈ es, x ≠ "" ∧
            x ∉ (hget (hset s.codeIdentities code (sadd (identsOf s code) e)) code).getD [] := by
          intro x hx
          obtain ⟨hx1, hx2⟩ := hall x (List.mem_cons_of_mem e hx)
          refine ⟨hx1, ?_⟩
          rw [hids2]
          intro hmem
          rcases (mem_sadd_iff _ _ _).mp hmem with h1 | h1
          · exact hnein (h1 ▸ hx)
          · exact hx2 h1
        obtain ⟨ihr, ihu⟩ := ih ({ s with
            codeUses := hset s.codeUses code (usesOf s code + 1)
            codes := hset s.codes code
              { maxUses := (N : Int), currentUses := usesOf s code + 1 }
            codeIdentities := hset s.codeIdentities code (sadd (identsOf s code) e)
            signedUp := sadd s.signedUp mid } : State)
          (u + 1) (usesOf s code + 1) hcode2 huse2 (by omega) hndt hall2
        constructor
        · rw [ihr]
          have e1 : min (e :: es).length (N - u) = min es.length (N - (u + 1)) + 1 := by
            simp only [List.length_cons]
            omega
          have e2 : (e :: es).length - (N - u) = es.length - (N - (u + 1)) := by
            simp only [List.length_cons]
            omega
          rw [e1, e2, List.replicate_succ, List.cons_append]
        · rw [ihu]
          have e3 : min (u + 1 + es.length) N = min (u + (e :: es).length) N := by
            simp only [List.length_cons]
            omega
          rw [e3]
    · -- the counter is exhausted: this call rolls back and fails
      have hueq : u = N := Nat.le_antisymm hu (Nat.not_lt.mp hu2)
      subst hueq
      have hlim : usesOf s code + 1 >
          ({ maxUses := (u : Int), currentUses := cu } : CodeInfo).maxUses := by
        rw [huse]
        push_cast
        omega
      have herr := useCommunityCode_limit s code
        { email := some e, phone := none, metadata := none } e rfl hne
        { maxUses := (u : Int), currentUses := cu } hcode hlim
      simp only [useSeq, herr]
      have huse2 : (hget (hset (hset s.codeUses code (usesOf s code + 1)) code
          (usesOf s code + 1 - 1)) code).getD 0 = (u : Int) := by
        rw [hget_hset_self, Option.getD_some, huse]
        ring
      have hall2 : ∀ x ∈ es, x ≠ "" ∧ x ∉ identsOf s code := by
        intro x hx
        exact hall x (List.mem_cons_of_mem e hx)
      obtain ⟨ihr, ihu⟩ := ih ({ s with
          codeUses := hset (hset s.codeUses code (usesOf s code + 1)) code
            (usesOf s code + 1 - 1) } : State)
        u cu hcode huse2 (le_refl u) hndt hall2
      constructor
      · rw [ihr]
        have e1 : min es.length (u - u) = 0 := by omega
        have e2 : es.length - (u - u) = es.length := by omega
        have e3 : min (e :: es).length (u - u) = 0 := by omega
        have e4 : (e :: es).length - (u - u) = es.length + 1 := by
          simp only [List.length_cons]
          omega
        rw [e1, e2, e3, e4, List.replicate_zero, List.nil_append,
          List.nil_append, List.replicate_succ]
      · rw [ihu]
        have e5 : min (u + es.length) u = min (u + (e :: es).length) u := by
          simp only [List.length_cons]
          omega
        rw [e5]

/-- `codeInv` survives the compensating rollback (increment then
decrement) of a failed conditional increment. -/
theorem codeInv_rollback (s s1 : State) (c code1 : String) (v : Int)
    (hv : usesOf s code1 = v)
    (hcodes : s1.codes = s.codes)
    (huses : s1.codeUses = hset (hset s.codeUses code1 (v + 1)) code1 (v + 1 - 1))
    (h : codeInv s c) : codeInv s1 c := by
  obtain ⟨hk1, hk2, hpos, hsome, hnone⟩ := h
  have husesc : usesOf s1 c = usesOf s c := by
    unfold usesOf
    rw [huses]
    by_cases hc : c = code1
    · subst hc
      rw [hget_hset_self, Option.getD_some]
      have hv2 : (hget s.codeUses c).getD 0 = v := hv
      omega
    · rw [hget_hset_ne _ _ _ _ hc, hget_hset_ne _ _ _ _ hc]
  unfold codeInv
  refine ⟨by rw [hcodes]; exact hk1,
          by rw [huses]; exact keysNodup_hset _ _ _ (keysNodup_hset _ _ _ hk2),
          by rw [husesc]; exact hpos, ?_, ?_⟩
  · intro i hi
    rw [hcodes] at hi
    rw [husesc]
    exact hsome i hi
  · intro hn
    rw [hcodes] at hn
    rw [husesc]
    exact hnone hn

/-- `codeInv` survives a successful guarded increment. -/
theorem codeInv_use_success (s s1 : State) (c code1 : String) (info : CodeInfo) (v : Int)
    (hv : usesOf s code1 = v)
    (hle : v + 1 ≤ info.maxUses)
    (hcodes : s1.codes = hset s.codes code1 { maxUses := info.maxUses, currentUses := v + 1 })
    (huses : s1.codeUses = hset s.codeUses code1 (v + 1))
    (h : codeInv s c) : codeInv s1 c := by
  obtain ⟨hk1, hk2, hpos, hsome, hnone⟩ := h
  by_cases hc : c = code1
  · subst hc
    have husesc : usesOf s1 c = v + 1 := by
      unfold usesOf
      rw [huses, hget_hset_self, Option.getD_some]
    have hpos2 : 0 ≤ v := hv ▸ hpos
    unfold codeInv
    refine ⟨by rw [hcodes]; exact keysNodup_hset _ _ _ hk1,
            by rw [huses]; exact keysNodup_hset _ _ _ hk2,
            by rw [husesc]; omega, ?_, ?_⟩
    · intro i hi
      rw [hcodes, hget_hset_self] at hi
      have hieq : i = { maxUses := info.maxUses, currentUses := v + 1 } :=
        (Option.some.inj hi).symm
      rw [husesc, hieq]
      exact hle
    · intro hn
      rw [hcodes, hget_hset_self] at hn
      simp at hn
  · have husesc : usesOf s1 c = usesOf s c := by
      unfold usesOf
      rw [huses, hget_hset_ne _ _ _ _ hc]
    unfold codeInv
    refine ⟨by rw [hcodes]; exact keysNodup_hset _ _ _ hk1,
            by rw [huses]; exact keysNodup_hset _ _ _ hk2,
            by rw [husesc]; exact hpos, ?_, ?_⟩
    · intro i hi
      rw [hcodes, hget_hset_ne _ _ _ _ hc] at hi
      rw [husesc]
      exact hsome i hi
    · intro hn
      rw [hcodes, hget_hset_ne _ _ _ _ hc] at hn
      rw [husesc]
      exact hnone hn

/-- `codeInv` survives deleting a community code (both the record and the
counter are removed together). -/
theorem codeInv_delete (s s1 : State) (c code1 : String)
    (hcodes : s1.codes = hdel s.codes code1)
    (huses : s1.codeUses = hdel s.codeUses code1)
    (h : codeInv s c) : codeInv s1 c := by
  obtain ⟨hk1, hk2, hpos, hsome, hnone⟩ := h
  by_cases hc : c = code1
  · subst hc
    have husesc : usesOf s1 c = 0 := by
      unfold usesOf
      rw [huses, hget_hdel_self _ _ hk2]
      rfl
    unfold codeInv
    refine ⟨by rw [hcodes]; exact keysNodup_hdel _ _ hk1,
            by rw [huses]; exact keysNodup_hdel _ _ hk2,
            by simp [husesc], ?_, ?_⟩
    · intro i hi
      rw [hcodes, hget_hdel_self _ _ hk1] at hi
      simp at hi
    · intro _
      rw [husesc]
  · have husesc : usesOf s1 c = usesOf s c := by
      unfold usesOf
      rw [huses, hget_hdel_ne _ _ _ hc]
    unfold codeInv
    refine ⟨by rw [hcodes]; exact keysNodup_hdel _ _ hk1,
            by rw [huses]; exact keysNodup_hdel _ _ hk2,
            by rw [husesc]; exact hpos, ?_, ?_⟩
    · intro i hi
      rw [hcodes, hget_hdel_ne _ _ _ hc] at hi
      rw [husesc]
      exact hsome i hi
    · intro hn
      rw [hcodes, hget_hdel_ne _ _ _ hc] at hn
      rw [husesc]
      exact hnone hn

/-- `codeInv` is established by `createCommunityCode` for a fresh code and
kept for all others. -/
theorem codeInv_create (s s1 : State) (c code1 : String) (maxU : Int)
    (hval : ¬(maxU < 1))
    (hnew : hget s.codes code1 = none)
    (hcodes : s1.codes = hset s.codes code1 { maxUses := maxU, currentUses := 0 })
    (huses : s1.codeUses = s.codeUses)
    (h : codeInv s c) : codeInv s1 c := by
  obtain ⟨hk1, hk2, hpos, hsome, hnone⟩ := h
  have husesc : usesOf s1 c = usesOf s c := by
    unfold usesOf
    rw [huses]
  by_cases hc : c = code1
  · subst hc
    have h0 : usesOf s c = 0 := hnone hnew
    unfold codeInv
    refine ⟨by rw [hcodes]; exact keysNodup_hset _ _ _ hk1,
            by rw [huses]; exact hk2,
            by rw [husesc]; exact hpos, ?_, ?_⟩
    · intro i hi
      rw [hcodes, hget_hset_self] at hi
      have hieq : i = { maxUses := maxU, currentUses := 0 } := (Option.some.inj hi).symm
      rw [husesc, h0, hieq]
      simp
      omega
    · intro _
      rw [husesc]
      exact h0
  · unfold codeInv
    refine ⟨by rw [hcodes]; exact keysNodup_hset _ _ _ hk1,
            by rw [huses]; exact hk2,
            by rw [husesc]; exact hpos, ?_, ?_⟩
    · intro i hi
      rw [hcodes, hget_hset_ne _ _ _ _ hc] at hi
      rw [husesc]
      exact hsome i hi
    · intro hn
      rw [hcodes, hget_hset_ne _ _ _ _ hc] at hn
      rw [husesc]
      exact hnone hn

/-- The invite-use script never touches the community-code hashes. -/
theorem useInviteCodeScript_community_frame (s : State) (code newId email phone : String)
    (bump : Int) :
    (useInviteCodeScript s code newId email phone bump).2.codes = s.codes ∧
    (useInviteCodeScript s code newId email phone bump).2.codeUses = s.codeUses := by
  unfold useInviteCodeScript
  repeat' split
  all_goals exact ⟨rfl, rfl⟩

/-- Neither does the `useInviteCode` wrapper. -/
theorem useInviteCode_community_frame (s : State) (code : String) (d : UserData)
    (bump : Int) (newId : String) :
    (useInviteCode s code d bump newId).2.codes = s.codes ∧
    (useInviteCode s code d bump newId).2.codeUses = s.codeUses := by
  have hs := useInviteCodeScript_community_frame s code newId (d.email.getD "")
    (d.phone.getD "") bump
  unfold useInviteCode
  split
  · exact ⟨rfl, rfl⟩
  split
  · exact ⟨rfl, rfl⟩
  split
  · exact ⟨rfl, rfl⟩
  split
  · exact ⟨rfl, rfl⟩
  split
  · rename_i e s1 heq
    have h2 : s1 = (useInviteCodeScript s code newId (d.email.getD "")
        (d.phone.getD "") bump).2 := by rw [heq]
    constructor
    · show s1.codes = s.codes
      rw [h2]
      exact hs.1
    · show s1.codeUses = s.codeUses
      rw [h2]
      exact hs.2
  · rename_i r s1 heq
    have h2 : s1 = (useInviteCodeScript s code newId (d.email.getD "")
        (d.phone.getD "") bump).2 := by rw [heq]
    constructor
    · show s1.codes = s.codes
      rw [h2]
      exact hs.1
    · show s1.codeUses = s.codeUses
      rw [h2]
      exact hs.2

/-- Every public operation preserves the community-code invariant; together
with `emptyState` satisfying it, every reachable state satisfies
`0 <= currentUses <= maxUses` for every code. -/
theorem codeInv_applyOp (op : Op) (s : State) (c : String) (h : codeInv s c) :
    codeInv (applyOp s op) c := by
  cases op with
  | insertUser newId d =>
    refine codeInv_frame s _ c ?_ ?_ h <;>
      simp only [applyOp, insertUser] <;> (repeat' split) <;> rfl
  | attachEmail id email =>
    refine codeInv_frame s _ c ?_ ?_ h <;>
      simp only [applyOp, attachEmail] <;> (repeat' split) <;> rfl
  | attachPhone id phone =>
    refine codeInv_frame s _ c ?_ ?_ h <;>
      simp only [applyOp, attachPhone] <;> (repeat' split) <;> rfl
  | moveUser id targetPos =>
    refine codeInv_frame s _ c ?_ ?_ h <;>
      simp only [applyOp, moveUser] <;> (repeat' split) <;> rfl
  | moveUserByEmail email targetPos =>
    refine codeInv_frame s _ c ?_ ?_ h <;>
      simp only [applyOp, moveUserByEmail, moveUser] <;> (repeat' split) <;> rfl
  | moveUserByPhone phone targetPos =>
    refine codeInv_frame s _ c ?_ ?_ h <;>
      simp only [applyOp, moveUserByPhone, moveUser] <;> (repeat' split) <;> rfl
  | deleteUser id =>
    refine codeInv_frame s _ c ?_ ?_ h <;>
      simp only [applyOp, deleteUser] <;> (repeat' split) <;> rfl
  | deleteUserByEmail email =>
    refine codeInv_frame s _ c ?_ ?_ h <;>
      simp only [applyOp, deleteUserByEmail, deleteUser] <;> (repeat' split) <;> rfl
  | deleteUserByPhone phone =>
    refine codeInv_frame s _ c ?_ ?_ h <;>
      simp only [applyOp, deleteUserByPhone, deleteUser] <;> (repeat' split) <;> rfl
  | createInviteCode userId minBump candidates =>
    refine codeInv_frame s _ c ?_ ?_ h <;>
      simp only [applyOp, createInviteCode] <;> (repeat' split) <;> rfl
  | useInviteCode code1 d bump newId =>
    refine codeInv_frame s _ c ?_ ?_ h
    · exact (useInviteCode_community_frame s code1 d bump newId).1
    · exact (useInviteCode_community_frame s code1 d bump newId).2
  | markUserAsSignedUp id =>
    refine codeInv_frame s _ c ?_ ?_ h <;>
      simp only [applyOp, markUserAsSignedUp] <;> (repeat' split) <;> rfl
  | setSignupCutoff cutoff =>
    refine codeInv_frame s _ c ?_ ?_ h <;>
      simp only [applyOp, setSignupCutoff] <;> (repeat' split) <;> rfl
  | setListLimit limit =>
    refine codeInv_frame s _ c ?_ ?_ h <;>
      simp only [applyOp, setListLimit] <;> (repeat' split) <;> rfl
  | setInviteCodeLimit limit =>
    refine codeInv_frame s _ c ?_ ?_ h <;>
      simp only [applyOp, setInviteCodeLimit] <;> (repeat' split) <;> rfl
  | createCommunityCode code1 maxU =>
    simp only [applyOp, createCommunityCode]
    split
    · exact h
    · rename_i hval
      split
      · exact h
      · rename_i hnew
        refine codeInv_create s _ c code1 maxU hval ?_ rfl rfl h
        exact Option.not_isSome_iff_eq_none.mp hnew
  | useCommunityCode code1 d =>
    simp only [applyOp, useCommunityCode]
    split
    · exact h
    · split
      · exact h
      · rename_i info hinfo
        split
        · exact codeInv_rollback s _ c code1 (usesOf s code1) rfl rfl rfl h
        · rename_i hgt
          split
          · exact codeInv_rollback s _ c code1 (usesOf s code1) rfl rfl rfl h
          · split
            · exact codeInv_rollback s _ c code1 (usesOf s code1) rfl rfl rfl h
            · repeat' split
              all_goals
                exact codeInv_use_success s _ c code1 info (usesOf s code1) rfl
                  (not_lt.mp hgt) rfl rfl h
  | deleteCommunityCode code1 =>
    simp only [applyOp, deleteCommunityCode]
    split
    · exact h
    · exact codeInv_delete s _ c code1 rfl rfl h

/-- **C5**.  (a) Every public operation preserves `0 <= currentUses <=
maxUses` for every community code (and the empty store satisfies it), so
every reachable state does; (b) for a code created with `maxUses = N`, a
serial replay of distinct-identity `useCommunityCode` calls yields exactly
`min(len, N)` successes followed by usage-limit failures only, and the
counter ends at `min(len, N)` - in particular at `N` with the increment of
every failed call rolled back. -/
theorem c5_communityCode_usage_ceiling :
    (∀ (op : Op) (s : State) (c : String), codeInv s c → codeInv (applyOp s op) c) ∧
    (∀ c : String, codeInv emptyState c) ∧
    (∀ (c : String) (N : Nat) (es : List String) (s0 : State),
      1 ≤ N →
      hget s0.codes c = none → usesOf s0 c = 0 → identsOf s0 c = [] →
      es.Nodup → (∀ e ∈ es, e ≠ "") →
      (useSeq (createCommunityCode s0 c (N : Int)).2 c es).1 =
        List.replicate (min es.length N) (Except.ok ()) ++
        List.replicate (es.length - N) (Except.error "Code has reached usage limit") ∧
      usesOf (useSeq (createCommunityCode s0 c (N : Int)).2 c es).2 c =
        ((min es.length N : Nat) : Int)) := by
  refine ⟨codeInv_applyOp, ?_, ?_⟩
  · intro c
    unfold codeInv keysNodup
    refine ⟨by simp [emptyState], by simp [emptyState], by exact le_refl 0, ?_, ?_⟩
    · intro i hi
      simp [emptyState, hget] at hi
    · intro _
      rfl
  · intro c N es s0 hN hnew h0use hids hnd hne
    have hval : ¬((N : Int) < 1) := by omega
    have hex : ¬((hget s0.codes c).isSome = true) := by
      rw [hnew]
      simp
    have hstep : (createCommunityCode s0 c (N : Int)).2 =
        { s0 with codes := hset s0.codes c { maxUses := (N : Int), currentUses := 0 } } := by
      unfold createCommunityCode
      rw [if_neg hval, if_neg hex]
    have hcode1 : hget (createCommunityCode s0 c (N : Int)).2.codes c =
        some { maxUses := (N : Int), currentUses := 0 } := by
      rw [hstep]
      exact hget_hset_self s0.codes c _
    have huse1 : usesOf (createCommunityCode s0 c (N : Int)).2 c = ((0 : Nat) : Int) := by
      rw [hstep]
      show usesOf s0 c = ((0 : Nat) : Int)
      rw [h0use]
      simp
    have hall1 : ∀ e ∈ es, e ≠ "" ∧ e ∉ identsOf (createCommunityCode s0 c (N : Int)).2 c := by
      intro e he
      refine ⟨hne e he, ?_⟩
      rw [hstep]
      show e ∉ identsOf s0 c
      rw [hids]
      simp
    obtain ⟨h1, h2⟩ := useSeq_spec c N es (createCommunityCode s0 c (N : Int)).2 0 0
      hcode1 huse1 (Nat.zero_le N) hnd hall1
    constructor
    · rw [h1, Nat.sub_zero]
    · rw [h2, Nat.zero_add]

/-- **C5** witness: code `"T1"` with `maxUses = 1` used with identities
`"a"` then `"b"` - one success, then the limit failure, counter 1. -/
theorem c5_communityCode_usage_ceiling_witness :
    (useSeq (createCommunityCode emptyState "T1" ((1 : Nat) : Int)).2 "T1" ["a", "b"]).1 =
      [Except.ok (), Except.error "Code has reached usage limit"] ∧
    usesOf (useSeq (createCommunityCode emptyState "T1" ((1 : Nat) : Int)).2 "T1"
      ["a", "b"]).2 "T1" = 1 := by
  obtain ⟨h1, h2⟩ := c5_communityCode_usage_ceiling.2.2 "T1" 1 ["a", "b"] emptyState
    (le_refl 1) rfl rfl rfl (by decide) (by decide)
  constructor
  · rw [h1]
    rfl
  · rw [h2]
    rfl

/-! ## Claim C8: signed-up members are immutable -/

theorem memberPinned_frame (s s1 : State) (id : String)
    (h1 : s1.signedUp = s.signedUp) (h2 : s1.users = s.users)
    (h : memberPinned s id) : memberPinned s1 id := by
  unfold memberPinned at h ⊢
  rw [h1, h2]
  exact h

theorem memberPinned_users_hset (s s1 : State) (id k : String) (v : UserRecord)
    (h1 : s1.signedUp = s.signedUp) (h2 : s1.users = hset s.users k v)
    (h : memberPinned s id) : memberPinned s1 id := by
  unfold memberPinned at h ⊢
  rw [h1, h2]
  exact ⟨h.1, isSome_hget_hset s.users k id v h.2⟩

theorem memberPinned_signedUp_sadd (s s1 : State) (id x : String)
    (h1 : s1.signedUp = sadd s.signedUp x) (h2 : s1.users = s.users)
    (h : memberPinned s id) : memberPinned s1 id := by
  unfold memberPinned at h ⊢
  rw [h1, h2]
  exact ⟨mem_sadd_of_mem s.signedUp x id h.1, h.2⟩

/-- `deleteUser` cannot remove a pinned member (the signed-up check fires
first) and deleting someone else leaves the pinned member intact. -/
theorem memberPinned_deleteUser (s : State) (id uid : String) (h : memberPinned s id) :
    memberPinned (deleteUser s uid).2 id := by
  unfold deleteUser
  split
  · exact h
  · rename_i userData hud
    split
    · exact h
    · rename_i hns
      have hne2 : id ≠ uid := by
        intro he
        subst he
        exact hns (by simpa using h.1)
      refine ⟨h.1, ?_⟩
      show (hget (hdel s.users uid) id).isSome = true
      rw [hget_hdel_ne s.users uid id hne2]
      exact h.2

/-- The invite-use script never touches the users hash or the signed-up
set. -/
theorem useInviteCodeScript_member_frame (s : State) (code newId email phone : String)
    (bump : Int) :
    (useInviteCodeScript s code newId email phone bump).2.signedUp = s.signedUp ∧
    (useInviteCodeScript s code newId email phone bump).2.users = s.users := by
  unfold useInviteCodeScript
  repeat' split
  all_goals exact ⟨rfl, rfl⟩

/-- Every public operation keeps a pinned member pinned: nothing ever
removes from the signed-up set, and the only operation that could remove
the member's record (`deleteUser`) refuses on signed-up members. -/
theorem memberPinned_applyOp (op : Op) (s : State) (id : String) (h : memberPinned s id) :
    memberPinned (applyOp s op) id := by
  cases op with
  | insertUser newId d =>
    simp only [applyOp, insertUser]
    repeat' split
    all_goals first
      | exact memberPinned_frame s _ id rfl rfl h
      | exact memberPinned_users_hset s _ id _ _ rfl rfl h
  | attachEmail id2 email =>
    simp only [applyOp, attachEmail]
    repeat' split
    all_goals first
      | exact memberPinned_frame s _ id rfl rfl h
      | exact memberPinned_users_hset s _ id _ _ rfl rfl h
  | attachPhone id2 phone =>
    simp only [applyOp, attachPhone]
    repeat' split
    all_goals first
      | exact memberPinned_frame s _ id rfl rfl h
      | exact memberPinned_users_hset s _ id _ _ rfl rfl h
  | moveUser id2 targetPos =>
    simp only [applyOp, moveUser]
    repeat' split
    all_goals exact memberPinned_frame s _ id rfl rfl h
  | moveUserByEmail email targetPos =>
    simp only [applyOp, moveUserByEmail, moveUser]
    repeat' split
    all_goals exact memberPinned_frame s _ id rfl rfl h
  | moveUserByPhone phone targetPos =>
    simp only [applyOp, moveUserByPhone, moveUser]
    repeat' split
    all_goals exact memberPinned_frame s _ id rfl rfl h
  | deleteUser uid =>
    exact memberPinned_deleteUser s id uid h
  | deleteUserByEmail email =>
    simp only [applyOp, deleteUserByEmail]
    split
    · exact h
    · exact memberPinned_deleteUser s id _ h
  | deleteUserByPhone phone =>
    simp only [applyOp, deleteUserByPhone]
    split
    · exact h
    · exact memberPinned_deleteUser s id _ h
  | createInviteCode userId minBump candidates =>
    simp only [applyOp, createInviteCode]
    repeat' split
    all_goals exact memberPinned_frame s _ id rfl rfl h
  | useInviteCode code1 d bump newId =>
    have hf := useInviteCodeScript_member_frame s code1 newId (d.email.getD "")
      (d.phone.getD "") bump
    simp only [applyOp, useInviteCode]
    split
    · exact h
    split
    · exact h
    split
    · exact h
    split
    · exact h
    split
    · rename_i e s1 heq
      have h2 : s1 = (useInviteCodeScript s code1 newId (d.email.getD "")
          (d.phone.getD "") bump).2 := by rw [heq]
      refine memberPinned_frame s _ id ?_ ?_ h
      · show s1.signedUp = s.signedUp
        rw [h2]
        exact hf.1
      · show s1.users = s.users
        rw [h2]
        exact hf.2
    · rename_i r s1 heq
      have h2 : s1 = (useInviteCodeScript s code1 newId (d.email.getD "")
          (d.phone.getD "") bump).2 := by rw [heq]
      refine memberPinned_users_hset s _ id newId
        { id := newId, email := d.email, phone := d.phone, metadata := d.metadata } ?_ ?_ h
      · show s1.signedUp = s.signedUp
        rw [h2]
        exact hf.1
      · show hset s1.users newId
            { id := newId, email := d.email, phone := d.phone, metadata := d.metadata } =
          hset s.users newId
            { id := newId, email := d.email, phone := d.phone, metadata := d.metadata }
        rw [h2, hf.2]
  | markUserAsSignedUp id2 =>
    simp only [applyOp, markUserAsSignedUp]
    repeat' split
    all_goals first
      | exact memberPinned_frame s _ id rfl rfl h
      | exact memberPinned_signedUp_sadd s _ id _ rfl rfl h
  | setSignupCutoff cutoff =>
    simp only [applyOp, setSignupCutoff]
    repeat' split
    all_goals exact memberPinned_frame s _ id rfl rfl h
  | setListLimit limit =>
    simp only [applyOp, setListLimit]
    repeat' split
    all_goals exact memberPinned_frame s _ id rfl rfl h
  | setInviteCodeLimit limit =>
    simp only [applyOp, setInviteCodeLimit]
    repeat' split
    all_goals exact memberPinned_frame s _ id rfl rfl h
  | createCommunityCode code1 maxU =>
    simp only [applyOp, createCommunityCode]
    repeat' split
    all_goals exact memberPinned_frame s _ id rfl rfl h
  | useCommunityCode code1 d =>
    simp only [applyOp, useCommunityCode]
    repeat' split
    all_goals first
      | exact memberPinned_frame s _ id rfl rfl h
      | exact memberPinned_signedUp_sadd s _ id _ rfl rfl h
  | deleteCommunityCode code1 =>
    simp only [applyOp, deleteCommunityCode]
    repeat' split
    all_goals exact memberPinned_frame s _ id rfl rfl h

/-- A successful `markUserAsSignedUp` only adds the member to the
signed-up set. -/
theorem markUserAsSignedUp_ok_state (s : State) (id : String)
    (hm : (markUserAsSignedUp s id).1 = true) :
    (markUserAsSignedUp s id).2 = { s with signedUp := sadd s.signedUp id } := by
  unfold markUserAsSignedUp at hm ⊢
  split at hm
  · simp at hm
  · split at hm
    · simp at hm
    · rename_i hc1 hc2
      rw [if_neg hc1, if_neg hc2]

/-- Pinned members stay pinned over any sequence of public calls. -/
theorem memberPinned_applyOps (ops : List Op) (s : State) (id : String)
    (h : memberPinned s id) : memberPinned (applyOps s ops) id := by
  induction ops generalizing s with
  | nil => exact h
  | cons op ops ih =>
    simp only [applyOps, List.foldl_cons]
    exact ih (applyOp s op) (memberPinned_applyOp op s id h)

/-- **C8**.  Once `markUserAsSignedUp(id)` has succeeded for a member with
a stored record, then after ANY sequence of further public operations
(which may change the cutoff arbitrarily), every `deleteUser(id)` and
every `moveUser(id, p)` - for every target position `p` - fails with the
respective signed-up-forbidden error and returns the state unchanged, so
the member's position and record are untouched. -/
theorem c8_signedUp_member_immutable (s0 : State) (id : String) (u : UserRecord)
    (hrec : hget s0.users id = some u)
    (hmark : (markUserAsSignedUp s0 id).1 = true)
    (ops : List Op) (t : Int) :
    deleteUser (applyOps (markUserAsSignedUp s0 id).2 ops) id =
      (Except.error "Cannot delete user that has already signed up",
       applyOps (markUserAsSignedUp s0 id).2 ops) ∧
    moveUser (applyOps (markUserAsSignedUp s0 id).2 ops) id t =
      (Except.error "Cannot move user that has already signed up",
       applyOps (markUserAsSignedUp s0 id).2 ops) := by
  have hpin1 : memberPinned (markUserAsSignedUp s0 id).2 id := by
    rw [markUserAsSignedUp_ok_state s0 id hmark]
    refine ⟨(mem_sadd_iff s0.signedUp id id).mpr (Or.inl rfl), ?_⟩
    show (hget s0.users id).isSome = true
    rw [hrec]
    rfl
  have hpinN := memberPinned_applyOps ops (markUserAsSignedUp s0 id).2 id hpin1
  obtain ⟨hmem, hsome⟩ := hpinN
  obtain ⟨u2, hu2⟩ := Option.isSome_iff_exists.mp hsome
  have hcont : (applyOps (markUserAsSignedUp s0 id).2 ops).signedUp.contains id = true := by
    simpa using hmem
  constructor
  · simp [deleteUser, hu2, hcont, hmem]
  · simp [moveUser, isUserSignedUp, hcont, hmem]

/-- **C8** witness: after marking `"m0"` signed up and then moving the
cutoff to -1, both `deleteUser` and `moveUser` still fail with the
signed-up errors and change nothing. -/
theorem c8_signedUp_member_immutable_witness :
    deleteUser (applyOps (markUserAsSignedUp c8State "m0").2 [Op.setSignupCutoff (-1)]) "m0" =
      (Except.error "Cannot delete user that has already signed up",
       applyOps (markUserAsSignedUp c8State "m0").2 [Op.setSignupCutoff (-1)]) ∧
    moveUser (applyOps (markUserAsSignedUp c8State "m0").2 [Op.setSignupCutoff (-1)]) "m0" 5 =
      (Except.error "Cannot move user that has already signed up",
       applyOps (markUserAsSignedUp c8State "m0").2 [Op.setSignupCutoff (-1)]) :=
  c8_signedUp_member_immutable c8State "m0"
    { id := "m0", email := some "m@x", phone := none, metadata := none }
    rfl rfl [Op.setSignupCutoff (-1)] 5
